import Mathlib

/-!
Verification of the vinyl statement layer (`src/box/vy_stmt.c`).

The development shallowly embeds the statement representation and its
operations: byte buffers are `List Nat` (one entry per byte), machine
integers are `Nat`/`Int` with explicit truncation where overflow matters,
fallible C functions return `Option`/`Except`, and the per-fiber scratch
region is threaded explicitly as a `Region` value.

External collaborators that the C file merely calls (the MessagePack
primitives of msgpuck, the xrow DML codec, the key-extraction primitive,
`tuple_field_map_create`) are modelled at the interface level; each such
definition carries a doc comment saying so.
-/

set_option maxHeartbeats 1000000

namespace Vy

/-! ### MessagePack byte-level primitives (model of the external msgpuck codec)

`src/box/vy_stmt.c` reads and writes its payloads through msgpuck's
`mp_encode_*` / `mp_decode_*` / `mp_next` functions.  We model the byte
format directly: a buffer is a `List Nat` of bytes. -/

/-- Modelled from the spec: big-endian encoding of `n` on `w` bytes, as used
by the msgpuck fixed-width encodings. -/
def natBE (w n : Nat) : List Nat :=
  match w with
  | 0 => []
  | w + 1 => natBE w (n / 256) ++ [n % 256]

/-- Modelled from the spec: big-endian decoding of `w` leading bytes.
Returns the value and the remaining bytes. -/
def readBE : Nat → List Nat → Option (Nat × List Nat)
  | 0, bs => some (0, bs)
  | _ + 1, [] => none
  | w + 1, b :: bs =>
    match readBE w bs with
    | none => none
    | some (n, rest) => some (b * 256 ^ w + n, rest)

/-- Modelled from the spec: msgpuck `mp_encode_nil`. -/
def mp_encode_nil : List Nat := [0xc0]

/-- Modelled from the spec: msgpuck `mp_encode_bool`. -/
def mp_encode_bool (b : Bool) : List Nat := if b then [0xc3] else [0xc2]

/-- Modelled from the spec: msgpuck `mp_encode_uint` (canonical smallest
encoding: positive fixint, then uint8/16/32/64). -/
def mp_encode_uint (n : Nat) : List Nat :=
  if n ≤ 0x7f then [n]
  else if n ≤ 0xff then 0xcc :: natBE 1 n
  else if n ≤ 0xffff then 0xcd :: natBE 2 n
  else if n ≤ 0xffffffff then 0xce :: natBE 4 n
  else 0xcf :: natBE 8 n

/-- Modelled from the spec: msgpuck `mp_encode_str` (header then raw bytes). -/
def mp_encode_str (s : List Nat) : List Nat :=
  if s.length ≤ 31 then (0xa0 + s.length) :: s
  else if s.length ≤ 0xff then 0xd9 :: natBE 1 s.length ++ s
  else if s.length ≤ 0xffff then 0xda :: natBE 2 s.length ++ s
  else 0xdb :: natBE 4 s.length ++ s

/-- Modelled from the spec: msgpuck `mp_encode_array` (header only). -/
def mp_encode_array (n : Nat) : List Nat :=
  if n ≤ 15 then [0x90 + n]
  else if n ≤ 0xffff then 0xdc :: natBE 2 n
  else 0xdd :: natBE 4 n

/-- Modelled from the spec: msgpuck `mp_encode_map` (header only, `n` pairs). -/
def mp_encode_map (n : Nat) : List Nat :=
  if n ≤ 15 then [0x80 + n]
  else if n ≤ 0xffff then 0xde :: natBE 2 n
  else 0xdf :: natBE 4 n

/-- Modelled from the spec: msgpuck `mp_decode_array`: reads an array header,
returning the element count and the remaining bytes. -/
def mp_decode_array : List Nat → Option (Nat × List Nat)
  | [] => none
  | b :: bs =>
    if 0x90 ≤ b ∧ b ≤ 0x9f then some (b - 0x90, bs)
    else if b = 0xdc then readBE 2 bs
    else if b = 0xdd then readBE 4 bs
    else none

/-- Modelled from the spec: msgpuck `mp_decode_map`: reads a map header,
returning the pair count and the remaining bytes. -/
def mp_decode_map : List Nat → Option (Nat × List Nat)
  | [] => none
  | b :: bs =>
    if 0x80 ≤ b ∧ b ≤ 0x8f then some (b - 0x80, bs)
    else if b = 0xde then readBE 2 bs
    else if b = 0xdf then readBE 4 bs
    else none

/-- Modelled from the spec: msgpuck `mp_decode_uint`. -/
def mp_decode_uint : List Nat → Option (Nat × List Nat)
  | [] => none
  | b :: bs =>
    if b ≤ 0x7f then some (b, bs)
    else if b = 0xcc then readBE 1 bs
    else if b = 0xcd then readBE 2 bs
    else if b = 0xce then readBE 4 bs
    else if b = 0xcf then readBE 8 bs
    else none

/-- Take exactly `n` bytes, failing when the buffer is shorter. -/
def takeExact (n : Nat) (bs : List Nat) : Option (List Nat × List Nat) :=
  if n ≤ bs.length then some (bs.take n, bs.drop n) else none

/-- Modelled from the spec: msgpuck `mp_decode_str`: reads a string header
and the string bytes. -/
def mp_decode_str (bs : List Nat) : Option (List Nat × List Nat) :=
  match bs with
  | [] => none
  | b :: bs =>
    if 0xa0 ≤ b ∧ b ≤ 0xbf then takeExact (b - 0xa0) bs
    else if b = 0xd9 then
      match readBE 1 bs with
      | none => none
      | some (n, rest) => takeExact n rest
    else if b = 0xda then
      match readBE 2 bs with
      | none => none
      | some (n, rest) => takeExact n rest
    else if b = 0xdb then
      match readBE 4 bs with
      | none => none
      | some (n, rest) => takeExact n rest
    else none

/-- The MessagePack object classes distinguished by the traversal code. -/
inductive MpType where
  | nil | bool | uint | int | flt | str | bin | arr | map
deriving DecidableEq

/-- Modelled from the spec: msgpuck `mp_typeof`, classifying the first byte
of an object.  `none` marks a byte that is not a valid object header. -/
def mp_typeof : Nat → Option MpType
  | b =>
    if b ≤ 0x7f then some .uint
    else if b ≤ 0x8f then some .map
    else if b ≤ 0x9f then some .arr
    else if b ≤ 0xbf then some .str
    else if b = 0xc0 then some .nil
    else if b = 0xc2 ∨ b = 0xc3 then some .bool
    else if 0xc4 ≤ b ∧ b ≤ 0xc6 then some .bin
    else if b = 0xca ∨ b = 0xcb then some .flt
    else if 0xcc ≤ b ∧ b ≤ 0xcf then some .uint
    else if 0xd0 ≤ b ∧ b ≤ 0xd3 then some .int
    else if 0xd9 ≤ b ∧ b ≤ 0xdb then some .str
    else if b = 0xdc ∨ b = 0xdd then some .arr
    else if b = 0xde ∨ b = 0xdf then some .map
    else if 0xe0 ≤ b ∧ b ≤ 0xff then some .int
    else none

/-- Classification of a MessagePack header byte, as needed for skipping one
object: `imm k` consumes nothing beyond the header and leaves `k` child
objects, `payload n` drops `n` inline bytes, `lenPayload w` reads a `w`-byte
length and drops that many bytes, `count w mult` reads a `w`-byte element
count `n` and leaves `mult * n` child objects, `bad` is malformed. -/
inductive HeadClass where
  | imm (children : Nat)
  | payload (n : Nat)
  | lenPayload (w : Nat)
  | count (w mult : Nat)
  | bad

/-- Modelled from the spec: the msgpuck header classification driving
`mp_next`. -/
def headClass (b : Nat) : HeadClass :=
  if b ≤ 0x7f then .imm 0
  else if b ≤ 0x8f then .imm (2 * (b - 0x80))
  else if b ≤ 0x9f then .imm (b - 0x90)
  else if b ≤ 0xbf then .payload (b - 0xa0)
  else if b = 0xc0 ∨ b = 0xc2 ∨ b = 0xc3 then .imm 0
  else if b = 0xc4 then .lenPayload 1
  else if b = 0xc5 then .lenPayload 2
  else if b = 0xc6 then .lenPayload 4
  else if b = 0xca then .payload 4
  else if b = 0xcb then .payload 8
  else if b = 0xcc ∨ b = 0xd0 then .payload 1
  else if b = 0xcd ∨ b = 0xd1 then .payload 2
  else if b = 0xce ∨ b = 0xd2 then .payload 4
  else if b = 0xcf ∨ b = 0xd3 then .payload 8
  else if b = 0xd9 then .lenPayload 1
  else if b = 0xda then .lenPayload 2
  else if b = 0xdb then .lenPayload 4
  else if b = 0xdc then .count 2 1
  else if b = 0xdd then .count 4 1
  else if b = 0xde then .count 2 2
  else if b = 0xdf then .count 4 2
  else if b ≤ 0xff then .imm 0
  else .bad

/-- One step of object skipping: given the header byte `b` and the bytes
after it, consume the header's inline payload and report how many child
objects remain to be skipped.  Unsupported classes (ext) yield `none`. -/
def mp_skip_head (b : Nat) (bs : List Nat) : Option (Nat × List Nat) :=
  match headClass b with
  | .imm k => some (k, bs)
  | .payload n => (takeExact n bs).map fun p => (0, p.2)
  | .lenPayload w =>
    (readBE w bs).bind fun p => (takeExact p.1 p.2).map fun q => (0, q.2)
  | .count w mult => (readBE w bs).map fun p => (mult * p.1, p.2)
  | .bad => none

/-- Modelled from the spec: msgpuck `mp_next` generalised to skipping `k`
objects.  `fuel` bounds the number of headers visited; callers pass a fuel
no smaller than the buffer length, which always suffices. -/
def mp_skip : Nat → Nat → List Nat → Option (List Nat)
  | _, 0, bs => some bs
  | 0, _ + 1, _ => none
  | _ + 1, _ + 1, [] => none
  | f + 1, k + 1, b :: bs =>
    match mp_skip_head b bs with
    | none => none
    | some (k', rest) => mp_skip f (k + k') rest

/-- Modelled from the spec: msgpuck `mp_next`: skip exactly one MessagePack
object, returning the suffix after it. -/
def mp_next (bs : List Nat) : Option (List Nat) :=
  mp_skip (bs.length + 1) 1 bs

theorem takeExact_eq_some {n : Nat} {bs p q : List Nat}
    (h : takeExact n bs = some (p, q)) : p = bs.take n ∧ q = bs.drop n := by
  unfold takeExact at h
  split at h
  · cases h; exact ⟨rfl, rfl⟩
  · cases h

theorem takeExact_suffix {n : Nat} {bs p q : List Nat}
    (h : takeExact n bs = some (p, q)) : q <:+ bs := by
  rcases takeExact_eq_some h with ⟨-, hq⟩
  exact hq ▸ List.drop_suffix n bs

theorem readBE_suffix : ∀ {w : Nat} {bs : List Nat} {n : Nat} {q : List Nat},
    readBE w bs = some (n, q) → q <:+ bs := by
  intro w
  induction w with
  | zero => intro bs n q h; cases h; exact List.suffix_rfl
  | succ w ih =>
    intro bs n q h
    cases bs with
    | nil => cases h
    | cons b bs =>
      simp only [readBE] at h
      cases hr : readBE w bs with
      | none => rw [hr] at h; cases h
      | some p =>
        rw [hr] at h
        cases h
        exact (ih hr).trans (List.suffix_cons b bs)

theorem mp_skip_head_suffix {b : Nat} {bs : List Nat} {k : Nat} {q : List Nat}
    (h : mp_skip_head b bs = some (k, q)) : q <:+ bs := by
  unfold mp_skip_head at h
  cases hc : headClass b <;> rw [hc] at h
  case imm c => cases h; exact List.suffix_rfl
  case payload n =>
    rcases Option.map_eq_some'.mp h with ⟨⟨p1, p2⟩, hp, he⟩
    cases he
    exact takeExact_suffix hp
  case lenPayload w =>
    rcases Option.bind_eq_some.mp h with ⟨⟨n1, n2⟩, hn, hm⟩
    rcases Option.map_eq_some'.mp hm with ⟨⟨p1, p2⟩, hp, he⟩
    cases he
    exact (takeExact_suffix hp).trans (readBE_suffix hn)
  case count w mult =>
    rcases Option.map_eq_some'.mp h with ⟨⟨p1, p2⟩, hp, he⟩
    cases he
    exact readBE_suffix hp
  case bad => cases h

theorem mp_skip_suffix : ∀ {f k : Nat} {bs r : List Nat},
    mp_skip f k bs = some r → r <:+ bs := by
  intro f
  induction f with
  | zero =>
    intro k bs r h
    cases k with
    | zero => cases h; exact List.suffix_rfl
    | succ k => cases h
  | succ f ih =>
    intro k bs r h
    cases k with
    | zero => cases h; exact List.suffix_rfl
    | succ k =>
      cases bs with
      | nil => cases h
      | cons b bs =>
        simp only [mp_skip] at h
        cases hh : mp_skip_head b bs with
        | none => rw [hh] at h; cases h
        | some p =>
          rw [hh] at h
          exact ((ih h).trans (mp_skip_head_suffix hh)).trans (List.suffix_cons b bs)

theorem mp_next_suffix {bs r : List Nat} (h : mp_next bs = some r) : r <:+ bs :=
  mp_skip_suffix h

theorem mp_next_lt {bs r : List Nat} (h : mp_next bs = some r) :
    r.length < bs.length := by
  unfold mp_next at h
  cases bs with
  | nil => cases h
  | cons b bs =>
    simp only [mp_skip] at h
    cases hh : mp_skip_head b bs with
    | none => rw [hh] at h; cases h
    | some p =>
      rw [hh] at h
      have h1 : r <:+ p.2 := mp_skip_suffix h
      have h2 : p.2 <:+ bs := mp_skip_head_suffix hh
      have := Nat.le_trans h1.length_le h2.length_le
      simpa [List.length_cons] using Nat.lt_succ_of_le this

/-- A suffix can be split off: the original buffer is the prefix before the
suffix followed by the suffix. -/
theorem suffix_take_append {r bs : List Nat} (h : r <:+ bs) :
    bs.take (bs.length - r.length) ++ r = bs := by
  rcases h with ⟨t, rfl⟩
  have hl : (t ++ r).length - r.length = t.length := by
    simp [List.length_append]
  rw [hl, List.take_left]

/-! ### Data model

The statement header of `struct vy_stmt` (a `struct tuple` followed by the
lsn/type/flags extension), the field map that precedes the payload, and the
payload itself.  The field map is a list of 4-byte slots; the C code indexes
the slots with negative offsets from the end of the map, the model uses
plain indices `0 .. slots-1`. -/

/-- A key in the format's field tree: either a positional index (array) or a
string key (map), mirroring `JSON_TOKEN_NUM` / `JSON_TOKEN_STR`. -/
inductive JsonToken where
  | num (n : Nat)
  | str (s : List Nat)
deriving DecidableEq

/-- Modelled from the spec: the external schema's field tree
(`format->fields`): each node records whether the field is part of an index
(`tuple_field::is_key_part`), its field-map slot if it has one
(`offset_slot`, `none` standing for `TUPLE_OFFSET_SLOT_NIL`), and its
labelled children. -/
inductive TupleFieldTree where
  | node (is_key : Bool) (slot : Option Nat)
         (children : List (JsonToken × TupleFieldTree))

/-- Whether the field is part of some index (`tuple_field::is_key_part`). -/
def TupleFieldTree.is_key_part : TupleFieldTree → Bool
  | .node b _ _ => b

/-- The field-map slot assigned to the field, if any. -/
def TupleFieldTree.offset_slot : TupleFieldTree → Option Nat
  | .node _ s _ => s

/-- The labelled children of the field in the tree. -/
def TupleFieldTree.children : TupleFieldTree → List (JsonToken × TupleFieldTree)
  | .node _ _ c => c

/-- Modelled from the spec: `json_tree_lookup_entry` on the field tree —
find the child of the current parent labelled `tok`. -/
def json_tree_lookup (children : List (JsonToken × TupleFieldTree))
    (tok : JsonToken) : Option TupleFieldTree :=
  match children with
  | [] => none
  | (t, f) :: rest => if t = tok then some f else json_tree_lookup rest tok

/-- Modelled from the spec: the external schema object (`struct
tuple_format`): field-map slot count, number of top-level indexed fields,
maximum field-tree depth, and the field tree (children of the root). -/
structure TupleFormat where
  id : Nat
  field_map_slots : Nat
  index_field_count : Nat
  fields_depth : Nat
  fields : List (JsonToken × TupleFieldTree)

/-- `format->field_map_size`: four bytes per slot. -/
def field_map_size (f : TupleFormat) : Nat := 4 * f.field_map_slots

/-- Modelled from the spec: `sizeof(struct vy_stmt)` — the fixed statement
header (reference count, format id, payload size, data offset, type, lsn,
flags).  The claims use it only as an opaque additive constant. -/
def sizeof_vy_stmt : Nat := 32

/-- The process-wide environment (`struct vy_stmt_env`).  The allocation
vtable (`tuple_format_vtab`) consists of function pointers and is not
needed by any claim; the claims use the maximum record size and the
canonical key format. -/
structure VyStmtEnv where
  max_tuple_size : Nat
  key_format : TupleFormat

/-- A vinyl statement (`struct vy_stmt`): header fields, the field map and
the payload bytes.  `bsize` is the header's payload-size field; for a
well-formed statement it equals `data.length`. -/
structure VyStmt where
  refs : Nat
  format_id : Nat
  bsize : Nat
  data_offset : Nat
  lsn : Int
  type : Nat
  flags : Nat
  field_map : List Nat
  data : List Nat
deriving DecidableEq

/-- `tuple_size`: header + field map (both covered by `data_offset`) plus
the payload size. -/
def tuple_size (s : VyStmt) : Nat := s.data_offset + s.bsize

/-- `tuple_data_range`: the payload byte range, of length `bsize`. -/
def tuple_data_range (s : VyStmt) : List Nat := s.data.take s.bsize

/-- `vy_stmt_set_flags`: the flags field is a `uint8_t`. -/
def vy_stmt_set_flags (s : VyStmt) (flags : Nat) : VyStmt :=
  { s with flags := flags % 256 }

/-- Modelled from the spec: the request type constants of the iproto
protocol (`enum iproto_type`); the claims use them only as distinct tags. -/
def IPROTO_SELECT : Nat := 1

/-- Modelled from the spec: iproto INSERT tag. -/
def IPROTO_INSERT : Nat := 2

/-- Modelled from the spec: iproto REPLACE tag. -/
def IPROTO_REPLACE : Nat := 3

/-- Modelled from the spec: iproto DELETE tag. -/
def IPROTO_DELETE : Nat := 5

/-- Modelled from the spec: iproto UPSERT tag. -/
def IPROTO_UPSERT : Nat := 9

/-- Modelled from the spec: the "skip read" statement flag bit. -/
def VY_STMT_SKIP_READ : Nat := 1

/-- Modelled from the spec: the "deferred delete" statement flag bit —
persisted only for records belonging to a primary index role. -/
def VY_STMT_DEFERRED_DELETE : Nat := 2

/-- Modelled from the spec: the "update-originated" statement flag bit —
never persisted. -/
def VY_STMT_UPDATE : Nat := 4

/-- Modelled from the spec: the set of all defined statement flags. -/
def VY_STMT_FLAGS_ALL : Nat :=
  VY_STMT_SKIP_READ ||| VY_STMT_DEFERRED_DELETE ||| VY_STMT_UPDATE

/-- Statement metadata key for the flags entry (`enum vy_stmt_meta_key`). -/
def VY_STMT_FLAGS : Nat := 0x01

/-- Modelled from the spec: `vy_stmt_is_key_format` — the canonical key
schema declares no indexed fields. -/
def vy_stmt_is_key_format (f : TupleFormat) : Bool :=
  f.index_field_count = 0

/-- Modelled from the spec: `vy_stmt_is_key` — whether the statement is a
bare key; `fmt` stands for `tuple_format(stmt)`. -/
def vy_stmt_is_key (fmt : TupleFormat) (_stmt : VyStmt) : Bool :=
  vy_stmt_is_key_format fmt

/-! ### The per-fiber scratch region (`&fiber()->gc`)

Modelled from the spec: the scratch arena exposes allocate / used /
truncate-to-savepoint.  Only the used-bytes counter is observable to the
claims; buffer contents obtained from the region are modelled by local
values. -/

/-- The scratch region state: its used-bytes counter. -/
structure Region where
  used : Nat
deriving DecidableEq

/-- `region_used`. -/
def region_used (r : Region) : Nat := r.used

/-- `region_alloc` (modelled as infallible: out-of-memory is environmental
nondeterminism none of the claims depend on). -/
def region_alloc (r : Region) (n : Nat) : Region := ⟨r.used + n⟩

/-- `region_truncate` back to a savepoint. -/
def region_truncate (_r : Region) (svp : Nat) : Region := ⟨svp⟩

/-! ### Record allocator -/

/-- Allocation failure: the computed total size exceeded the environment's
maximum (`ER_VINYL_MAX_TUPLE_SIZE`, carrying the offending size). -/
inductive VyErr where
  | SizeExceeded (total_size : Nat)
deriving DecidableEq

/-- Result of an allocating operation: the number of `tuple_format_ref`
calls it performed (the schema refcount interaction) and the statement or
the error. -/
structure AllocResult where
  format_refs_added : Nat
  stmt : Except VyErr VyStmt

/-- `vy_stmt_alloc`: computes `total_size = sizeof(struct vy_stmt) +
format->field_map_size + bsize`, stored into a `uint32_t`, so the sum is
truncated mod 2^32 before anything else; fails with the size error (which
carries the truncated value) when the truncated total exceeds
`env->max_tuple_size`; otherwise initializes the header: refs 1, the
format id, bsize, `data_offset = sizeof(struct vy_stmt) + field_map_size`,
lsn 0, type 0, flags 0.  References the format iff running on the main
cord.  The field map and payload are uninitialized memory in C (every
caller overwrites them); the model initializes them to zeros/empty.
`malloc` failure is environmental nondeterminism and is not modelled. -/
def vy_stmt_alloc (env : VyStmtEnv) (format : TupleFormat) (bsize : Nat)
    (is_main : Bool) : AllocResult :=
  let total_size :=
    (sizeof_vy_stmt + field_map_size format + bsize) % 2 ^ 32
  if total_size > env.max_tuple_size then
    { format_refs_added := 0, stmt := .error (.SizeExceeded total_size) }
  else
    { format_refs_added := if is_main then 1 else 0
      stmt := .ok
        { refs := 1
          format_id := format.id
          bsize := bsize
          data_offset := sizeof_vy_stmt + field_map_size format
          lsn := 0
          type := 0
          flags := 0
          field_map := List.replicate format.field_map_slots 0
          data := [] } }

/-- `vy_stmt_dup`: allocate a statement of the same format and payload size,
`memcpy` the whole of `stmt` over it (header, field map and payload — so
every field of the copy equals the original's), then reset the copy's
reference count to 1.  `format` stands for `tuple_format(stmt)`. -/
def vy_stmt_dup (env : VyStmtEnv) (format : TupleFormat) (stmt : VyStmt)
    (is_main : Bool) : AllocResult :=
  let r := vy_stmt_alloc env format stmt.bsize is_main
  match r.stmt with
  | .error e => { format_refs_added := r.format_refs_added, stmt := .error e }
  | .ok _res =>
    { format_refs_added := r.format_refs_added
      stmt := .ok { stmt with refs := 1 } }

/-- Result of `vy_stmt_dup_lsregion`: the size requested from the lsregion,
the reserved upsert-counter byte written before the copy (present iff the
statement is upsert-typed), the schema refcount interaction (none — the
function performs no `tuple_format_ref` call), and the copied statement. -/
structure LsAlloc where
  alloc_id : Int
  alloc_size : Nat
  upsert_counter_byte : Option Nat
  format_refs_added : Nat
  stmt : VyStmt
deriving DecidableEq

/-- `vy_stmt_dup_lsregion`: requests `tuple_size(stmt)` bytes from the
lsregion (plus one leading byte, set to 0, when the statement is an
upsert), copies the statement verbatim after that byte and stamps the
copy's reference count to 0.  lsregion out-of-memory is environmental
nondeterminism and is not modelled. -/
def vy_stmt_dup_lsregion (stmt : VyStmt) (alloc_id : Int) : LsAlloc :=
  let type := stmt.type
  let size := tuple_size stmt
  let alloc_size := if type = IPROTO_UPSERT then size + 1 else size
  { alloc_id := alloc_id
    alloc_size := alloc_size
    upsert_counter_byte := if type = IPROTO_UPSERT then some 0 else none
    format_refs_added := 0
    stmt := { stmt with refs := 0 } }

/-- Modelled from the spec: `vy_stmt_format_new` for the environment's
canonical zero-field key schema (`vy_stmt_format_new(env, NULL, 0, NULL,
0, 0, NULL)`): no key parts, hence no field-map slots, no indexed fields
and a trivial field tree. -/
def vy_stmt_key_format : TupleFormat :=
  { id := 0
    field_map_slots := 0
    index_field_count := 0
    fields_depth := 1
    fields := [] }

/-- `vy_stmt_env_create`: maximum record size `1024 * 1024` bytes and the
canonical key format. -/
def vy_stmt_env_create : VyStmtEnv :=
  { max_tuple_size := 1024 * 1024
    key_format := vy_stmt_key_format }

/-- `vy_key_new`: measure the `part_count` key values with `mp_next`,
allocate `mp_sizeof_array(part_count) + key_size` payload bytes, write the
array header followed by the key bytes.  The type stays 0 (a bare key). -/
def vy_key_new (env : VyStmtEnv) (format : TupleFormat) (key : List Nat)
    (part_count : Nat) (is_main : Bool) : Option VyStmt :=
  match mp_skip (key.length + 1) part_count key with
  | none => none
  | some rest =>
    let key_size := key.length - rest.length
    let bsize := (mp_encode_array part_count).length + key_size
    match (vy_stmt_alloc env format bsize is_main).stmt with
    | .error _ => none
    | .ok stmt =>
      some { stmt with data := mp_encode_array part_count ++ key.take key_size }

/-- `vy_stmt_set_lsn`. -/
def vy_stmt_set_lsn (s : VyStmt) (lsn : Int) : VyStmt := { s with lsn := lsn }

/-! ### Constructors and transforms -/

/-- Result of a region-using constructor: the final scratch-region state,
the schema refcount interaction performed, and the constructed statement
if any. -/
structure CtorResult where
  region : Region
  format_refs_added : Nat
  stmt : Option VyStmt

/-- Modelled from the spec: the external `tuple_field_map_create` — builds
the field-map slots for a payload under a format, or fails when the
payload cannot be mapped.  Its scratch allocations are accounted by the
caller's region threading. -/
def FieldMapCreate : Type := TupleFormat → List Nat → Option (List Nat)

/-- `vy_stmt_new_with_ops`: take a region savepoint, build the field map
(on the region), allocate a statement of `mpsize + ops_size` payload
bytes, copy the field map, the tuple data and the operation buffers, stamp
the type, and truncate the region back to the savepoint on every exit
path. -/
def vy_stmt_new_with_ops (env : VyStmtEnv) (fmc : FieldMapCreate)
    (format : TupleFormat) (tuple_begin : List Nat) (ops : List (List Nat))
    (type : Nat) (is_main : Bool) (r : Region) : CtorResult :=
  let ops_size := (ops.map List.length).sum
  let region_svp := region_used r
  let r1 := region_alloc r (field_map_size format)
  match fmc format tuple_begin with
  | none =>
    { region := region_truncate r1 region_svp
      format_refs_added := 0
      stmt := none }
  | some field_map =>
    let mpsize := tuple_begin.length
    let bsize := mpsize + ops_size
    let ar := vy_stmt_alloc env format bsize is_main
    match ar.stmt with
    | .error _ =>
      { region := region_truncate r1 region_svp
        format_refs_added := ar.format_refs_added
        stmt := none }
    | .ok stmt =>
      { region := region_truncate r1 region_svp
        format_refs_added := ar.format_refs_added
        stmt := some { stmt with
                        field_map := field_map
                        data := tuple_begin ++ ops.flatten
                        type := type } }

/-- `vy_stmt_new_upsert`. -/
def vy_stmt_new_upsert (env : VyStmtEnv) (fmc : FieldMapCreate)
    (format : TupleFormat) (tuple_begin : List Nat) (operations : List (List Nat))
    (is_main : Bool) (r : Region) : CtorResult :=
  vy_stmt_new_with_ops env fmc format tuple_begin operations IPROTO_UPSERT is_main r

/-- `vy_stmt_new_replace`. -/
def vy_stmt_new_replace (env : VyStmtEnv) (fmc : FieldMapCreate)
    (format : TupleFormat) (tuple_begin : List Nat) (is_main : Bool)
    (r : Region) : CtorResult :=
  vy_stmt_new_with_ops env fmc format tuple_begin [] IPROTO_REPLACE is_main r

/-- `vy_stmt_new_insert`. -/
def vy_stmt_new_insert (env : VyStmtEnv) (fmc : FieldMapCreate)
    (format : TupleFormat) (tuple_begin : List Nat) (is_main : Bool)
    (r : Region) : CtorResult :=
  vy_stmt_new_with_ops env fmc format tuple_begin [] IPROTO_INSERT is_main r

/-- `vy_stmt_new_delete`. -/
def vy_stmt_new_delete (env : VyStmtEnv) (fmc : FieldMapCreate)
    (format : TupleFormat) (tuple_begin : List Nat) (is_main : Bool)
    (r : Region) : CtorResult :=
  vy_stmt_new_with_ops env fmc format tuple_begin [] IPROTO_DELETE is_main r

/-- `vy_upsert_data_range`: the payload up to the end of its first
MessagePack object (the tuple array) together with the remainder (the
trailing UPSERT operations).  The split is computed with `mp_next`; a
payload `mp_next` cannot parse is undefined behavior in C and yields
`none` here. -/
def vy_upsert_data_range (stmt : VyStmt) : Option (List Nat × List Nat) :=
  let d := tuple_data_range stmt
  match mp_next d with
  | none => none
  | some rest => some (d.take (d.length - rest.length), rest)

/-- `vy_stmt_upsert_ops`: the trailing operations range of an upsert. -/
def vy_stmt_upsert_ops (stmt : VyStmt) : Option (List Nat) :=
  (vy_upsert_data_range stmt).map Prod.snd

/-- `vy_stmt_replace_from_upsert`: measure the payload without the trailing
operations, allocate a statement of exactly that payload size, copy the
field map and the leading payload bytes (`memcpy` from just after the
header, of `field_map_size + bsize` bytes — the header itself is freshly
initialized by the allocator), stamp type REPLACE and the upsert's lsn.
`format` stands for `tuple_format(upsert)`. -/
def vy_stmt_replace_from_upsert (env : VyStmtEnv) (format : TupleFormat)
    (upsert : VyStmt) (is_main : Bool) : Option VyStmt :=
  match vy_upsert_data_range upsert with
  | none => none
  | some (dataPart, _ops) =>
    let bsize := dataPart.length
    match (vy_stmt_alloc env format bsize is_main).stmt with
    | .error _ => none
    | .ok replace =>
      some { replace with
              field_map := upsert.field_map
              data := dataPart
              type := IPROTO_REPLACE
              lsn := upsert.lsn }

/-- The upsert demotion as the spec words it, for the refinement check:
"allocates a new record of that length, bulk-copies header+field-map+data
(not operations), retags as `Replace`, preserves LSN" — copying the header
carries over every header field of the upsert (in particular its flags and
reference count). -/
def vy_stmt_replace_from_upsert_spec (upsert : VyStmt) : Option VyStmt :=
  match vy_upsert_data_range upsert with
  | none => none
  | some (dataPart, _ops) =>
    some { upsert with
            bsize := dataPart.length
            data := dataPart
            type := IPROTO_REPLACE }

/-- Modelled from the spec: the external key-definition object — the
top-level field indices that form the key, exposing `part_count =
parts.length` and key extraction. -/
structure KeyDef where
  parts : List Nat

/-- Split the `n` leading MessagePack objects off `bs`, returning their
individual byte ranges. -/
def mp_fields : Nat → List Nat → Option (List (List Nat))
  | 0, _ => some []
  | n + 1, bs =>
    match mp_next bs with
    | none => none
    | some rest =>
      match mp_fields n rest with
      | none => none
      | some fs => some (bs.take (bs.length - rest.length) :: fs)

/-- Modelled from the spec: the external key-extraction primitive
(`tuple_extract_key_raw`): collect the key definition's parts from the
top-level fields of the payload array into a fresh key array. -/
def tuple_extract_key_raw (data : List Nat) (key_def : KeyDef) :
    Option (List Nat) :=
  match mp_decode_array data with
  | none => none
  | some (n, rest) =>
    match mp_fields n rest with
    | none => none
    | some fields =>
      match key_def.parts.mapM (fun i => fields[i]?) with
      | none => none
      | some ps => some (mp_encode_array key_def.parts.length ++ ps.flatten)

/-- Modelled from the spec: `tuple_extract_key` on a statement's payload. -/
def tuple_extract_key (stmt : VyStmt) (key_def : KeyDef) : Option (List Nat) :=
  tuple_extract_key_raw (tuple_data_range stmt) key_def

/-- `vy_stmt_extract_key`: extract the key parts (scratch-region backed),
wrap them via `vy_key_new`, truncate the region back to the savepoint. -/
def vy_stmt_extract_key (env : VyStmtEnv) (stmt : VyStmt) (key_def : KeyDef)
    (format : TupleFormat) (is_main : Bool) (r : Region) :
    Region × Option VyStmt :=
  let region_svp := region_used r
  match tuple_extract_key stmt key_def with
  | none => (r, none)
  | some key_raw =>
    let r1 := region_alloc r key_raw.length
    match mp_decode_array key_raw with
    | none => (region_truncate r1 region_svp, none)
    | some (part_count, key_bytes) =>
      let key := vy_key_new env format key_bytes part_count is_main
      (region_truncate r1 region_svp, key)

/-! ### Surrogate delete synthesis -/

/-- A traversal stack frame (`struct mp_frame`): the container kind (only
array or map occurs), its declared element (or pair) count and the index
of the next element to process (the C frame stores the index of the last
processed element, starting at -1). -/
structure MpFrame where
  kind : MpType
  count : Nat
  idx : Nat
deriving DecidableEq

/-- Modelled from the spec: `sizeof(struct mp_frame)`, used only for the
size of the frame buffer obtained from the scratch region. -/
def sizeof_mp_frame : Nat := 12

mutual

/-- The traversal loop of `vy_stmt_new_surrogate_delete_raw`: simultaneous
parsing of the source tuple and `format->fields` tree walk over an
explicit frame stack.  `src` is the unread source, `out` the emitted
surrogate bytes (the C `data .. pos` range, so `out.length = pos - data`),
`fmap` the field-map slots, and each stack entry pairs the C frame with
the tree children of its parent node (the single `parent` pointer of the
C code, restored on pop).  An exhausted frame is popped; an empty stack
finishes.  The fuel is a model artifact bounding the iteration count; the
top-level call supplies enough for any input.  `none` is a parse failure
(undefined behavior in C). -/
def surrogate_loop (format : TupleFormat) (f : Nat)
    (src out fmap : List Nat)
    (stack : List (MpFrame × List (JsonToken × TupleFieldTree))) :
    Option (List Nat × List Nat) :=
  match stack with
  | [] => some (out, fmap)
  | (fr, parent) :: rest =>
    match f with
    | 0 => none
    | f + 1 =>
      if fr.idx ≥ fr.count then
        surrogate_loop format f src out fmap rest
      else
        let idx := fr.idx
        let stack1 := ({ fr with idx := idx + 1 }, parent) :: rest
        match fr.kind with
        | .arr =>
          surrogate_step format f (JsonToken.num idx) parent src out fmap stack1
        | _ =>
          match src with
          | [] => none
          | b :: _ =>
            if mp_typeof b ≠ some .str then
              match mp_next src with
              | none => none
              | some src1 =>
                match mp_next src1 with
                | none => none
                | some src2 => surrogate_loop format f src2 out fmap stack1
            else
              match mp_decode_str src with
              | none => none
              | some (s, src1) =>
                surrogate_step format f (JsonToken.str s) parent src1
                  (out ++ mp_encode_str s) fmap stack1

/-- Processing of one addressed element (shared by the array and map
branches of the loop): look the token up among the parent's children; an
unmatched or non-indexed field is consumed and replaced by a nil
placeholder; a matched indexed field records the current output offset
into its slot and is either descended into (container value, stack not
full) or copied verbatim. -/
def surrogate_step (format : TupleFormat) (f : Nat) (tok : JsonToken)
    (parent : List (JsonToken × TupleFieldTree))
    (src out fmap : List Nat)
    (stack : List (MpFrame × List (JsonToken × TupleFieldTree))) :
    Option (List Nat × List Nat) :=
  match json_tree_lookup parent tok with
  | none =>
    match mp_next src with
    | none => none
    | some src1 =>
      surrogate_loop format f src1 (out ++ mp_encode_nil) fmap stack
  | some field =>
    if !field.is_key_part then
      match mp_next src with
      | none => none
      | some src1 =>
        surrogate_loop format f src1 (out ++ mp_encode_nil) fmap stack
    else
      let fmap1 :=
        match field.offset_slot with
        | some slot => fmap.set slot out.length
        | none => fmap
      match src with
      | [] => none
      | b :: _ =>
        match mp_typeof b with
        | none => none
        | some t =>
          if (t = .arr ∨ t = .map) ∧ stack.length < format.fields_depth then
            if t = .arr then
              match mp_decode_array src with
              | none => none
              | some (size, src1) =>
                surrogate_loop format f src1 (out ++ mp_encode_array size)
                  fmap1 ((⟨.arr, size, 0⟩, field.children) :: stack)
            else
              match mp_decode_map src with
              | none => none
              | some (size, src1) =>
                surrogate_loop format f src1 (out ++ mp_encode_map size)
                  fmap1 ((⟨.map, size, 0⟩, field.children) :: stack)
          else
            match mp_next src with
            | none => none
            | some src1 =>
              surrogate_loop format f src1
                (out ++ src.take (src.length - src1.length)) fmap1 stack

end

/-- `vy_stmt_new_surrogate_delete_raw`: take a region savepoint, reserve
the surrogate buffer and the frame stack on the region, emit an array of
`min(src_count, format->index_field_count)` fields via the traversal,
allocate the statement, copy the synthesized payload and the recorded
field map into it, stamp type DELETE, and truncate the region back to the
savepoint on every exit path. -/
def vy_stmt_new_surrogate_delete_raw (env : VyStmtEnv) (format : TupleFormat)
    (src_data : List Nat) (is_main : Bool) (r : Region) : CtorResult :=
  let src_size := src_data.length
  let total_size := src_size + field_map_size format
  let region_svp := region_used r
  let r1 := region_alloc r total_size
  match mp_decode_array src_data with
  | none =>
    { region := region_truncate r1 region_svp
      format_refs_added := 0
      stmt := none }
  | some (src_count, src_pos) =>
    let field_count := min src_count format.index_field_count
    let fmap0 := List.replicate format.field_map_slots 0
    let out0 := mp_encode_array field_count
    let frames_sz := format.fields_depth * sizeof_mp_frame
    let r2 := region_alloc r1 frames_sz
    match surrogate_loop format (2 * src_data.length + 2) src_pos out0 fmap0
        [(⟨.arr, field_count, 0⟩, format.fields)] with
    | none =>
      { region := region_truncate r2 region_svp
        format_refs_added := 0
        stmt := none }
    | some (out, fmap) =>
      let bsize := out.length
      let ar := vy_stmt_alloc env format bsize is_main
      match ar.stmt with
      | .error _ =>
        { region := region_truncate r2 region_svp
          format_refs_added := ar.format_refs_added
          stmt := none }
      | .ok stmt =>
        { region := region_truncate r2 region_svp
          format_refs_added := ar.format_refs_added
          stmt := some { stmt with
                          data := out
                          field_map := fmap
                          type := IPROTO_DELETE } }

/-! ### Wire codec -/

/-- `vy_stmt_persistent_flags`: the flags that must be persisted when the
statement is written to disk — the update flag is never persisted, and the
deferred-delete flag is not persisted for a secondary index role. -/
def vy_stmt_persistent_flags (stmt : VyStmt) (is_primary : Bool) : Nat :=
  let mask := VY_STMT_FLAGS_ALL
  let mask := mask &&& (255 ^^^ VY_STMT_UPDATE)
  let mask :=
    if !is_primary then mask &&& (255 ^^^ VY_STMT_DEFERRED_DELETE) else mask
  stmt.flags &&& mask

/-- `vy_stmt_meta_encode`: when any persistable flag survives the masking,
build the one-entry metadata map `(VY_STMT_FLAGS : flags)`; otherwise
nothing is encoded and the request's metadata range stays empty.  The C
buffer lives on the scratch region; region out-of-memory is not
modelled. -/
def vy_stmt_meta_encode (stmt : VyStmt) (is_primary : Bool) :
    Option (List Nat) :=
  let flags := vy_stmt_persistent_flags stmt is_primary
  if flags = 0 then none
  else some (mp_encode_map 1 ++ mp_encode_uint VY_STMT_FLAGS ++
             mp_encode_uint flags)

/-- The entry loop of `vy_stmt_meta_decode`: apply each key of the metadata
map; the flags key sets the statement flags, unknown keys are skipped. -/
def vy_stmt_meta_decode_entries : Nat → List Nat → VyStmt → Option VyStmt
  | 0, _, stmt => some stmt
  | i + 1, data, stmt =>
    match mp_decode_uint data with
    | none => none
    | some (key, data) =>
      if key = VY_STMT_FLAGS then
        match mp_decode_uint data with
        | none => none
        | some (flags, data) =>
          vy_stmt_meta_decode_entries i data (vy_stmt_set_flags stmt flags)
      else
        match mp_next data with
        | none => none
        | some data => vy_stmt_meta_decode_entries i data stmt

/-- `vy_stmt_meta_decode`: apply the request's metadata block to the
statement; a missing block decodes nothing.  Malformed metadata is
undefined behavior in C and yields `none` here. -/
def vy_stmt_meta_decode (tuple_meta : Option (List Nat)) (stmt : VyStmt) :
    Option VyStmt :=
  match tuple_meta with
  | none => some stmt
  | some data =>
    match mp_decode_map data with
    | none => none
    | some (size, data) => vy_stmt_meta_decode_entries size data stmt

/-- The generic DML request body (`struct request`), zero-initialized by
both encoders: type, space id and the key/tuple/ops/metadata byte
ranges. -/
structure Request where
  type : Nat
  space_id : Nat
  key : Option (List Nat)
  tuple : Option (List Nat)
  ops : Option (List Nat)
  tuple_meta : Option (List Nat)
deriving DecidableEq

/-- The all-zero request (`memset(&request, 0, sizeof(request))`). -/
def request_zero : Request :=
  { type := 0, space_id := 0, key := none, tuple := none, ops := none
    tuple_meta := none }

/-- The network row header (`struct xrow_header`): type, lsn and the DML
body ranges. -/
structure XrowHeader where
  type : Nat
  lsn : Int
  body : Option Request
deriving DecidableEq

/-- Modelled from the spec: the external xrow DML codec
(`xrow_encode_dml`), modelled as the lossless identity on the DML record
shape the spec gives (type, lsn, key/tuple/ops/meta ranges). -/
def xrow_encode_dml (request : Request) : Option Request := some request

/-- Modelled from the spec: `xrow_decode_dml`, inverse of the encoder. -/
def xrow_decode_dml (xrow : XrowHeader) : Option Request := xrow.body

/-- `vy_stmt_encode_primary`: fill an xrow with the statement type and lsn
and a DML body holding — for DELETE the bare-key payload (if the statement
is a key) or the extracted key; for INSERT/REPLACE the full payload range;
for UPSERT the tuple data range plus the trailing operations range — plus
the metadata block when any persistable flag survives primary masking.
`fmt` stands for `tuple_format(value)`. -/
def vy_stmt_encode_primary (fmt : TupleFormat) (value : VyStmt)
    (key_def : KeyDef) (space_id : Nat) : Option XrowHeader :=
  let type := value.type
  let lsn := value.lsn
  let req0 := { request_zero with type := type, space_id := space_id }
  let withBody : Option Request :=
    if type = IPROTO_DELETE then
      match (if vy_stmt_is_key fmt value then some (tuple_data_range value)
             else tuple_extract_key value key_def) with
      | none => none
      | some extracted => some { req0 with key := some extracted }
    else if type = IPROTO_INSERT ∨ type = IPROTO_REPLACE then
      some { req0 with tuple := some (tuple_data_range value) }
    else if type = IPROTO_UPSERT then
      match vy_upsert_data_range value with
      | none => none
      | some (dataPart, opsPart) =>
        some { req0 with tuple := some dataPart, ops := some opsPart }
    else none
  match withBody with
  | none => none
  | some req1 =>
    let req2 := { req1 with tuple_meta := vy_stmt_meta_encode value true }
    match xrow_encode_dml req2 with
    | none => none
    | some body => some { type := type, lsn := lsn, body := some body }

/-- `vy_stmt_encode_secondary`: always computes an extracted key (or the
bare-key payload when the statement is a key); for REPLACE/INSERT the
extracted bytes become the tuple range, otherwise (DELETE) the key range;
the metadata block is masked for a secondary role.  `fmt` stands for
`tuple_format(value)`. -/
def vy_stmt_encode_secondary (fmt : TupleFormat) (value : VyStmt)
    (cmp_def : KeyDef) : Option XrowHeader :=
  let type := value.type
  let lsn := value.lsn
  let req0 := { request_zero with type := type }
  match (if vy_stmt_is_key fmt value then some (tuple_data_range value)
         else tuple_extract_key value cmp_def) with
  | none => none
  | some extracted =>
    let req1 :=
      if type = IPROTO_REPLACE ∨ type = IPROTO_INSERT then
        { req0 with tuple := some extracted }
      else
        { req0 with key := some extracted }
    let req2 := { req1 with tuple_meta := vy_stmt_meta_encode value false }
    match xrow_encode_dml req2 with
    | none => none
    | some body => some { type := type, lsn := lsn, body := some body }

/-- `vy_stmt_decode`: decode the DML body, rebuild the statement — DELETE
against the environment's key format from the key range, INSERT/REPLACE
against the given format from the tuple range, UPSERT from the tuple range
plus the single operations blob — then apply the metadata flags and
finally the xrow lsn, unconditionally.  An unknown request type is a
malformed persisted record (`ER_INVALID_RUN_FILE`). -/
def vy_stmt_decode (env : VyStmtEnv) (fmc : FieldMapCreate)
    (format : TupleFormat) (xrow : XrowHeader) (is_main : Bool)
    (r : Region) : Region × Option VyStmt :=
  match xrow_decode_dml xrow with
  | none => (r, none)
  | some request =>
    let built : Region × Option VyStmt :=
      if request.type = IPROTO_DELETE then
        match request.key with
        | none => (r, none)
        | some key =>
          let c := vy_stmt_new_with_ops env fmc env.key_format key []
            IPROTO_DELETE is_main r
          (c.region, c.stmt)
      else if request.type = IPROTO_INSERT ∨ request.type = IPROTO_REPLACE then
        match request.tuple with
        | none => (r, none)
        | some tuple =>
          let c := vy_stmt_new_with_ops env fmc format tuple []
            request.type is_main r
          (c.region, c.stmt)
      else if request.type = IPROTO_UPSERT then
        match request.tuple, request.ops with
        | some tuple, some ops =>
          let c := vy_stmt_new_with_ops env fmc format tuple [ops]
            IPROTO_UPSERT is_main r
          (c.region, c.stmt)
        | _, _ => (r, none)
      else (r, none)
    match built with
    | (r1, none) => (r1, none)
    | (r1, some stmt) =>
      match vy_stmt_meta_decode request.tuple_meta stmt with
      | none => (r1, none)
      | some stmt1 => (r1, some (vy_stmt_set_lsn stmt1 xrow.lsn))

/-- The reference-count field write (`res->refs = n`; `tuple_ref` /
`tuple_unref` adjust the same field).  Separate `VyStmt` values share no
state in the embedding, so the write leaves every other field — and any
other statement value — untouched. -/
def vy_stmt_set_refs (s : VyStmt) (n : Nat) : VyStmt := { s with refs := n }

/-! ### Basic facts -/

theorem region_truncate_to_used (r r' : Region) :
    region_truncate r' (region_used r) = r := rfl

/-- C3 (amended): for every schema and payload size whose computed total
(`header + field_map + payload`) fits in 32 bits and exceeds the
environment's maximum, `vy_stmt_alloc` fails with the size error carrying
the offending total, performs no allocation (in particular no schema
reference is taken) and returns the error sentinel.  The 32-bit bound is
forced by the source: the total is stored into a `uint32_t`
(vy_stmt.c:159), so a larger sum is silently truncated before the check. -/
theorem C3_alloc_size_enforcement_amended (env : VyStmtEnv)
    (format : TupleFormat) (bsize : Nat) (is_main : Bool)
    (hlt : sizeof_vy_stmt + field_map_size format + bsize < 2 ^ 32)
    (h : sizeof_vy_stmt + field_map_size format + bsize >
      env.max_tuple_size) :
    vy_stmt_alloc env format bsize is_main =
      { format_refs_added := 0
        stmt := .error
          (.SizeExceeded
            (sizeof_vy_stmt + field_map_size format + bsize)) } := by
  simp only [vy_stmt_alloc, Nat.mod_eq_of_lt hlt]
  rw [if_pos h]

/-- Witness for the amended C3 at a concrete environment limit. -/
theorem C3_alloc_size_enforcement_amended_witness :
    sizeof_vy_stmt + field_map_size vy_stmt_key_format + 100 < 2 ^ 32 ∧
    sizeof_vy_stmt + field_map_size vy_stmt_key_format + 100 > 64 ∧
    vy_stmt_alloc ⟨64, vy_stmt_key_format⟩ vy_stmt_key_format 100 true =
      { format_refs_added := 0
        stmt := .error (.SizeExceeded
          (sizeof_vy_stmt + field_map_size vy_stmt_key_format + 100)) } :=
  ⟨by decide, by decide,
   C3_alloc_size_enforcement_amended ⟨64, vy_stmt_key_format⟩
     vy_stmt_key_format 100 true (by decide) (by decide)⟩

/-- Counterexample to C3 as stated: the C total is truncated to 32 bits
(vy_stmt.c:159), so a payload of `2^32 - 8` bytes makes the mathematical
total `2^32 + 24` wrap to `24`, which passes the 1 MiB check: the
allocation succeeds with no `SizeExceeded` — a silent truncation the
claim asserts cannot happen. -/
theorem C3_truncation_counterexample :
    sizeof_vy_stmt + field_map_size vy_stmt_key_format + (2 ^ 32 - 8) >
      1048576 ∧
    ∃ s, (vy_stmt_alloc ⟨1048576, vy_stmt_key_format⟩ vy_stmt_key_format
      (2 ^ 32 - 8) true).stmt = Except.ok s := by
  refine ⟨by decide,
    { refs := 1, format_id := vy_stmt_key_format.id,
      bsize := 2 ^ 32 - 8,
      data_offset := sizeof_vy_stmt + field_map_size vy_stmt_key_format,
      lsn := 0, type := 0, flags := 0,
      field_map := List.replicate vy_stmt_key_format.field_map_slots 0,
      data := [] }, ?_⟩
  simp only [vy_stmt_alloc]
  rw [if_neg (by decide)]

/-- C10 (amended): the environment constructor sets the maximum record
size to exactly `1024 * 1024 = 1048576`; consequently any allocation
whose computed total fits in 32 bits and exceeds that maximum fails with
the size error.  The 32-bit bound is forced by the `uint32_t` truncation
of the total in `vy_stmt_alloc` (vy_stmt.c:159). -/
theorem C10_env_create_max_size_amended (format : TupleFormat)
    (bsize : Nat) (is_main : Bool)
    (hlt : sizeof_vy_stmt + field_map_size format + bsize < 2 ^ 32)
    (h : sizeof_vy_stmt + field_map_size format + bsize > 1048576) :
    vy_stmt_env_create.max_tuple_size = 1048576 ∧
    vy_stmt_alloc vy_stmt_env_create format bsize is_main =
      { format_refs_added := 0
        stmt := .error
          (.SizeExceeded
            (sizeof_vy_stmt + field_map_size format + bsize)) } := by
  refine ⟨rfl, ?_⟩
  simp only [vy_stmt_alloc, Nat.mod_eq_of_lt hlt]
  rw [if_pos]
  exact h

/-- Witness for the amended C10 at a concrete schema and an oversized
payload. -/
theorem C10_env_create_max_size_amended_witness :
    sizeof_vy_stmt + field_map_size vy_stmt_key_format + 2000000 < 2 ^ 32 ∧
    sizeof_vy_stmt + field_map_size vy_stmt_key_format + 2000000 >
      1048576 ∧
    (vy_stmt_env_create.max_tuple_size = 1048576 ∧
     vy_stmt_alloc vy_stmt_env_create vy_stmt_key_format 2000000 true =
       { format_refs_added := 0
         stmt := .error (.SizeExceeded
           (sizeof_vy_stmt + field_map_size vy_stmt_key_format +
             2000000)) }) :=
  ⟨by decide, by decide,
   C10_env_create_max_size_amended vy_stmt_key_format 2000000 true
     (by decide) (by decide)⟩

/-- Counterexample to C10's consequent as stated: under the created
environment's 1 MiB maximum, a payload of `2^32 - 16` bytes has a
mathematical total far above the maximum, yet the `uint32_t` truncation
makes the checked value `16`, so the allocation succeeds with no
`SizeExceeded`. -/
theorem C10_truncation_counterexample :
    vy_stmt_env_create.max_tuple_size = 1048576 ∧
    sizeof_vy_stmt + field_map_size vy_stmt_key_format + (2 ^ 32 - 16) >
      1048576 ∧
    ∃ s, (vy_stmt_alloc vy_stmt_env_create vy_stmt_key_format
      (2 ^ 32 - 16) true).stmt = Except.ok s := by
  refine ⟨rfl, by decide,
    { refs := 1, format_id := vy_stmt_key_format.id,
      bsize := 2 ^ 32 - 16,
      data_offset := sizeof_vy_stmt + field_map_size vy_stmt_key_format,
      lsn := 0, type := 0, flags := 0,
      field_map := List.replicate vy_stmt_key_format.field_map_slots 0,
      data := [] }, ?_⟩
  simp only [vy_stmt_alloc]
  rw [if_neg (by decide)]

/-- C8: `vy_stmt_dup_lsregion` copies the statement's bytes verbatim into
the arena (the copy equals the original except for the reference count,
stamped 0), reserves exactly one zeroed leading byte if and only if the
statement is upsert-typed, and performs no schema reference-count
interaction. -/
theorem C8_dup_lsregion (stmt : VyStmt) (alloc_id : Int) :
    (vy_stmt_dup_lsregion stmt alloc_id).stmt = { stmt with refs := 0 } ∧
    (vy_stmt_dup_lsregion stmt alloc_id).format_refs_added = 0 ∧
    (vy_stmt_dup_lsregion stmt alloc_id).alloc_size =
      (if stmt.type = IPROTO_UPSERT then tuple_size stmt + 1
       else tuple_size stmt) ∧
    (vy_stmt_dup_lsregion stmt alloc_id).upsert_counter_byte =
      (if stmt.type = IPROTO_UPSERT then some 0 else none) :=
  ⟨rfl, rfl, rfl, rfl⟩

/-- C9: both scratch-arena users — ordinary record construction
(`vy_stmt_new_with_ops`) and surrogate-delete synthesis — restore the
region to its pre-call savepoint on every exit path, success or failure;
and a failing call produces no record and takes no schema reference
(`format_refs_added` is non-zero only when a statement is produced on the
main cord). -/
theorem C9_region_discipline (env : VyStmtEnv) (fmc : FieldMapCreate)
    (format : TupleFormat) (tuple_begin : List Nat) (ops : List (List Nat))
    (type : Nat) (src_data : List Nat) (is_main : Bool) (r : Region) :
    (vy_stmt_new_with_ops env fmc format tuple_begin ops type is_main r).region
      = r ∧
    (vy_stmt_new_with_ops env fmc format tuple_begin ops type
        is_main r).format_refs_added =
      (vy_stmt_new_with_ops env fmc format tuple_begin ops type
        is_main r).stmt.elim 0 (fun _ => if is_main then 1 else 0) ∧
    (vy_stmt_new_surrogate_delete_raw env format src_data is_main r).region
      = r ∧
    (vy_stmt_new_surrogate_delete_raw env format src_data
        is_main r).format_refs_added =
      (vy_stmt_new_surrogate_delete_raw env format src_data
        is_main r).stmt.elim 0 (fun _ => if is_main then 1 else 0) := by
  have hwo : ∀ g : CtorResult → Prop,
      (∀ c : CtorResult, c.region = r →
        c.format_refs_added =
          c.stmt.elim 0 (fun _ => if is_main then 1 else 0) → g c) →
      g (vy_stmt_new_with_ops env fmc format tuple_begin ops type is_main r) := by
    intro g hg
    unfold vy_stmt_new_with_ops
    cases hf : fmc format tuple_begin with
    | none => exact hg _ rfl rfl
    | some fm =>
      unfold vy_stmt_alloc
      by_cases hs : (sizeof_vy_stmt + field_map_size format +
          (tuple_begin.length + (List.map List.length ops).sum)) % 2 ^ 32 >
          env.max_tuple_size
      · simp only [hs, if_true]
        exact hg _ rfl rfl
      · simp only [hs, if_false]
        exact hg _ rfl rfl
  have hsu : ∀ g : CtorResult → Prop,
      (∀ c : CtorResult, c.region = r →
        c.format_refs_added =
          c.stmt.elim 0 (fun _ => if is_main then 1 else 0) → g c) →
      g (vy_stmt_new_surrogate_delete_raw env format src_data is_main r) := by
    intro g hg
    unfold vy_stmt_new_surrogate_delete_raw
    cases hd : mp_decode_array src_data with
    | none => exact hg _ rfl rfl
    | some p =>
      simp only
      cases surrogate_loop format (2 * src_data.length + 2) p.2
          (mp_encode_array (min p.1 format.index_field_count))
          (List.replicate format.field_map_slots 0)
          [(⟨.arr, min p.1 format.index_field_count, 0⟩, format.fields)] with
      | none => exact hg _ rfl rfl
      | some q =>
        simp only
        unfold vy_stmt_alloc
        by_cases hs : (sizeof_vy_stmt + field_map_size format +
            q.1.length) % 2 ^ 32 > env.max_tuple_size
        · simp only [hs, if_true]
          exact hg _ rfl rfl
        · simp only [hs, if_false]
          exact hg _ rfl rfl
  refine ⟨?_, ?_, ?_, ?_⟩
  · exact hwo (fun c => c.region = r) (fun c h1 _h2 => h1)
  · exact hwo (fun c => c.format_refs_added =
      c.stmt.elim 0 (fun _ => if is_main then 1 else 0)) (fun c _h1 h2 => h2)
  · exact hsu (fun c => c.region = r) (fun c h1 _h2 => h1)
  · exact hsu (fun c => c.format_refs_added =
      c.stmt.elim 0 (fun _ => if is_main then 1 else 0)) (fun c _h1 h2 => h2)

/-- C2: the flags persisted in the metadata block equal the record's flags
with the update-originated bit always cleared and, when encoding for a
secondary-index role, the deferred-delete bit additionally cleared; when
the resulting mask is zero the block is omitted entirely.  In particular a
record with the deferred-delete flag (e.g. a primary-index Delete) persists
that bit under the primary encoder and not under the secondary one.  The
hypothesis confines the record's flags to the defined flag bits. -/
theorem C2_flag_masking (stmt : VyStmt)
    (h : stmt.flags &&& VY_STMT_FLAGS_ALL = stmt.flags) :
    vy_stmt_persistent_flags stmt true =
      stmt.flags &&& (255 ^^^ VY_STMT_UPDATE) ∧
    vy_stmt_persistent_flags stmt false =
      stmt.flags &&& (255 ^^^ VY_STMT_UPDATE) &&&
        (255 ^^^ VY_STMT_DEFERRED_DELETE) ∧
    vy_stmt_meta_encode stmt true =
      (if stmt.flags &&& (255 ^^^ VY_STMT_UPDATE) = 0 then none
       else some (mp_encode_map 1 ++ mp_encode_uint VY_STMT_FLAGS ++
         mp_encode_uint (stmt.flags &&& (255 ^^^ VY_STMT_UPDATE)))) ∧
    vy_stmt_meta_encode stmt false =
      (if stmt.flags &&& (255 ^^^ VY_STMT_UPDATE) &&&
          (255 ^^^ VY_STMT_DEFERRED_DELETE) = 0 then none
       else some (mp_encode_map 1 ++ mp_encode_uint VY_STMT_FLAGS ++
         mp_encode_uint (stmt.flags &&& (255 ^^^ VY_STMT_UPDATE) &&&
           (255 ^^^ VY_STMT_DEFERRED_DELETE)))) ∧
    (stmt.flags &&& VY_STMT_DEFERRED_DELETE ≠ 0 →
      vy_stmt_persistent_flags stmt true &&& VY_STMT_DEFERRED_DELETE ≠ 0 ∧
      vy_stmt_persistent_flags stmt false &&& VY_STMT_DEFERRED_DELETE = 0) := by
  rcases stmt with ⟨refs, fid, bsz, off, lsn, ty, fl, fm, dat⟩
  simp only at h ⊢
  have hfl : fl < 8 := by
    have h7 : fl &&& VY_STMT_FLAGS_ALL ≤ VY_STMT_FLAGS_ALL := Nat.and_le_right
    rw [h] at h7
    have hall : VY_STMT_FLAGS_ALL = 7 := rfl
    omega
  refine ⟨?_, ?_, ?_, ?_, ?_⟩ <;>
    simp only [vy_stmt_persistent_flags, vy_stmt_meta_encode] <;>
    interval_cases fl <;> decide

/-- Witness for C2 at the spec's own example: a Delete with flags
`{update, deferred_delete}` persists `{deferred_delete}` under the primary
encoder and omits the block under the secondary encoder. -/
theorem C2_flag_masking_witness :
    vy_stmt_persistent_flags
      { refs := 1, format_id := 0, bsize := 1, data_offset := 32, lsn := 3
        type := IPROTO_DELETE, flags := 6, field_map := [], data := [0x90] }
      true = 2 ∧
    vy_stmt_meta_encode
      { refs := 1, format_id := 0, bsize := 1, data_offset := 32, lsn := 3
        type := IPROTO_DELETE, flags := 6, field_map := [], data := [0x90] }
      false = none := by
  have h := C2_flag_masking
    { refs := 1, format_id := 0, bsize := 1, data_offset := 32, lsn := 3
      type := IPROTO_DELETE, flags := 6, field_map := [], data := [0x90] }
    (by decide)
  exact ⟨h.1.trans (by decide), h.2.2.2.1.trans (by decide)⟩

/-- C7: `vy_stmt_dup` yields a fresh record with the same schema, identical
total size, identical data offset, identical field-map offsets and
identical payload bytes, whose own reference count is 1 regardless of the
original's; and writing any reference count into the duplicate (the
embedding's rendering of refcount mutation — separate values share no
state) leaves its payload and field map, and the original value, intact.
The hypothesis is that the duplicate's allocation fits the environment
limit, which the original's existence guarantees in C. -/
theorem C7_dup_fidelity (env : VyStmtEnv) (format : TupleFormat)
    (stmt : VyStmt) (is_main : Bool)
    (h : sizeof_vy_stmt + field_map_size format + stmt.bsize ≤
      env.max_tuple_size) :
    ∃ d : VyStmt, (vy_stmt_dup env format stmt is_main).stmt = .ok d ∧
      d.refs = 1 ∧
      d.format_id = stmt.format_id ∧
      tuple_size d = tuple_size stmt ∧
      d.data_offset = stmt.data_offset ∧
      d.field_map = stmt.field_map ∧
      d.data = stmt.data ∧
      (∀ n, (vy_stmt_set_refs d n).refs = n ∧
            (vy_stmt_set_refs d n).data = stmt.data ∧
            (vy_stmt_set_refs d n).field_map = stmt.field_map) := by
  unfold vy_stmt_dup vy_stmt_alloc
  rw [if_neg (by
    have hm := Nat.mod_le
      (sizeof_vy_stmt + field_map_size format + stmt.bsize) (2 ^ 32)
    omega :
    ¬ (sizeof_vy_stmt + field_map_size format + stmt.bsize) % 2 ^ 32 >
      env.max_tuple_size)]
  exact ⟨{ stmt with refs := 1 }, rfl, rfl, rfl, rfl, rfl, rfl, rfl,
    fun n => ⟨rfl, rfl, rfl⟩⟩

/-- Witness for C7: a concrete record with reference count 5 duplicates to
reference count 1 with identical layout. -/
theorem C7_dup_fidelity_witness :
    sizeof_vy_stmt + field_map_size vy_stmt_key_format + 2 ≤
      vy_stmt_env_create.max_tuple_size ∧
    (∃ d : VyStmt,
      (vy_stmt_dup vy_stmt_env_create vy_stmt_key_format
        { refs := 5, format_id := 0, bsize := 2, data_offset := 32, lsn := 9
          type := 3, flags := 1, field_map := [], data := [0x91, 0x04] }
        true).stmt = .ok d ∧
      d.refs = 1 ∧
      d.format_id = 0 ∧
      tuple_size d = tuple_size
        { refs := 5, format_id := 0, bsize := 2, data_offset := 32, lsn := 9
          type := 3, flags := 1, field_map := [], data := [0x91, 0x04] } ∧
      d.data_offset = 32 ∧
      d.field_map = [] ∧
      d.data = [0x91, 0x04] ∧
      (∀ n, (vy_stmt_set_refs d n).refs = n ∧
            (vy_stmt_set_refs d n).data = [0x91, 0x04] ∧
            (vy_stmt_set_refs d n).field_map = [])) :=
  ⟨by decide,
   C7_dup_fidelity vy_stmt_env_create vy_stmt_key_format
     { refs := 5, format_id := 0, bsize := 2, data_offset := 32, lsn := 9
       type := 3, flags := 1, field_map := [], data := [0x91, 0x04] }
     true (by decide)⟩

/-- `vy_stmt_alloc` succeeds when the computed total size fits the
environment limit, with the freshly initialized header. -/
theorem vy_stmt_alloc_ok (env : VyStmtEnv) (format : TupleFormat)
    (bsize : Nat) (is_main : Bool)
    (h : sizeof_vy_stmt + field_map_size format + bsize ≤
      env.max_tuple_size) :
    vy_stmt_alloc env format bsize is_main =
      { format_refs_added := if is_main then 1 else 0
        stmt := .ok { refs := 1, format_id := format.id, bsize := bsize
                      data_offset := sizeof_vy_stmt + field_map_size format
                      lsn := 0, type := 0, flags := 0
                      field_map := List.replicate format.field_map_slots 0
                      data := [] } } := by
  unfold vy_stmt_alloc
  rw [if_neg (by
    have hm := Nat.mod_le
      (sizeof_vy_stmt + field_map_size format + bsize) (2 ^ 32)
    omega :
    ¬ (sizeof_vy_stmt + field_map_size format + bsize) % 2 ^ 32 >
      env.max_tuple_size)]

theorem mp_decode_uint_fixnum {n : Nat} (h : n ≤ 0x7f) (rest : List Nat) :
    mp_decode_uint (n :: rest) = some (n, rest) := by
  simp only [mp_decode_uint]
  rw [if_pos h]

/-- The persistable-flag mask is confined to the low flag bits. -/
theorem vy_stmt_persistent_flags_le (stmt : VyStmt) (p : Bool) :
    vy_stmt_persistent_flags stmt p ≤ 3 := by
  cases p <;>
    · simp only [vy_stmt_persistent_flags]
      exact le_trans Nat.and_le_right (by decide)

/-- Decoding the encoded metadata block applies exactly the persisted
flags: nothing when the mask is zero (the block is omitted), the mask
otherwise. -/
theorem vy_stmt_meta_roundtrip (stmt stmt' : VyStmt) (p : Bool) :
    vy_stmt_meta_decode (vy_stmt_meta_encode stmt p) stmt' =
      some (if vy_stmt_persistent_flags stmt p = 0 then stmt'
            else vy_stmt_set_flags stmt' (vy_stmt_persistent_flags stmt p)) := by
  have hm : vy_stmt_persistent_flags stmt p ≤ 3 :=
    vy_stmt_persistent_flags_le stmt p
  by_cases h0 : vy_stmt_persistent_flags stmt p = 0
  · simp [vy_stmt_meta_encode, h0, vy_stmt_meta_decode]
  · have hmu : mp_encode_uint (vy_stmt_persistent_flags stmt p) =
        [vy_stmt_persistent_flags stmt p] := by
      unfold mp_encode_uint
      rw [if_pos (by omega)]
    have henc : vy_stmt_meta_encode stmt p =
        some (0x81 :: (1 : Nat) :: [vy_stmt_persistent_flags stmt p]) := by
      simp only [vy_stmt_meta_encode]
      rw [if_neg h0, hmu]
      rfl
    rw [henc]
    simp only [vy_stmt_meta_decode, mp_decode_map]
    norm_num
    simp only [vy_stmt_meta_decode_entries,
      mp_decode_uint_fixnum (by norm_num : (1 : Nat) ≤ 0x7f),
      mp_decode_uint_fixnum (by omega : vy_stmt_persistent_flags stmt p ≤ 0x7f)]
    rw [if_pos (show (1 : Nat) = VY_STMT_FLAGS from rfl), if_neg h0]

/-- `vy_stmt_new_with_ops` succeeds when the field map is created and the
total size fits, and its result is fully determined. -/
theorem vy_stmt_new_with_ops_ok (env : VyStmtEnv) (fmc : FieldMapCreate)
    (format : TupleFormat) (tuple_begin : List Nat) (ops : List (List Nat))
    (type : Nat) (is_main : Bool) (r : Region) (fm : List Nat)
    (hfm : fmc format tuple_begin = some fm)
    (hfit : sizeof_vy_stmt + field_map_size format +
      (tuple_begin.length + (ops.map List.length).sum) ≤
      env.max_tuple_size) :
    vy_stmt_new_with_ops env fmc format tuple_begin ops type is_main r =
      { region := r
        format_refs_added := if is_main then 1 else 0
        stmt := some
          { refs := 1, format_id := format.id
            bsize := tuple_begin.length + (ops.map List.length).sum
            data_offset := sizeof_vy_stmt + field_map_size format
            lsn := 0, type := type, flags := 0
            field_map := fm
            data := tuple_begin ++ ops.flatten } } := by
  simp only [vy_stmt_new_with_ops, hfm,
    vy_stmt_alloc_ok env format
      (tuple_begin.length + (ops.map List.length).sum) is_main hfit]
  rfl

/-- A successful upsert split reassembles to the full payload. -/
theorem vy_upsert_data_range_join {stmt : VyStmt} {dp op : List Nat}
    (h : vy_upsert_data_range stmt = some (dp, op)) :
    dp ++ op = tuple_data_range stmt := by
  simp only [vy_upsert_data_range] at h
  cases hmn : mp_next (tuple_data_range stmt) with
  | none => rw [hmn] at h; cases h
  | some rest =>
    rw [hmn] at h
    cases h
    exact suffix_take_append (mp_next_suffix hmn)

/-- Unfolding of `vy_stmt_decode` on an INSERT/REPLACE request. -/
theorem vy_stmt_decode_insert_replace_eq (env : VyStmtEnv)
    (fmc : FieldMapCreate) (format : TupleFormat) (t0 : Nat) (l : Int)
    (ty sp : Nat) (ky o : Option (List Nat)) (tb : List Nat)
    (meta : Option (List Nat)) (is_main : Bool) (r : Region)
    (hty : ty = IPROTO_INSERT ∨ ty = IPROTO_REPLACE) :
    vy_stmt_decode env fmc format
      { type := t0, lsn := l
        body := some { type := ty, space_id := sp, key := ky
                       tuple := some tb, ops := o, tuple_meta := meta } }
      is_main r =
      (let c := vy_stmt_new_with_ops env fmc format tb [] ty is_main r
       match c.stmt with
       | none => (c.region, none)
       | some s =>
         match vy_stmt_meta_decode meta s with
         | none => (c.region, none)
         | some s1 => (c.region, some (vy_stmt_set_lsn s1 l))) := by
  rcases hty with h | h <;> subst h
  · simp only [vy_stmt_decode, xrow_decode_dml]
    norm_num [IPROTO_DELETE, IPROTO_INSERT, IPROTO_REPLACE, IPROTO_UPSERT]
    cases (vy_stmt_new_with_ops env fmc format tb [] 2 is_main r).stmt with
    | none => rfl
    | some s => cases vy_stmt_meta_decode meta s <;> rfl
  · simp only [vy_stmt_decode, xrow_decode_dml]
    norm_num [IPROTO_DELETE, IPROTO_INSERT, IPROTO_REPLACE, IPROTO_UPSERT]
    cases (vy_stmt_new_with_ops env fmc format tb [] 3 is_main r).stmt with
    | none => rfl
    | some s => cases vy_stmt_meta_decode meta s <;> rfl

/-- Unfolding of `vy_stmt_decode` on a DELETE request: the statement is
rebuilt against the environment's key format. -/
theorem vy_stmt_decode_delete_eq (env : VyStmtEnv) (fmc : FieldMapCreate)
    (format : TupleFormat) (t0 : Nat) (l : Int) (sp : Nat)
    (tu o : Option (List Nat)) (kb : List Nat) (meta : Option (List Nat))
    (is_main : Bool) (r : Region) :
    vy_stmt_decode env fmc format
      { type := t0, lsn := l
        body := some { type := IPROTO_DELETE, space_id := sp, key := some kb
                       tuple := tu, ops := o, tuple_meta := meta } }
      is_main r =
      (let c := vy_stmt_new_with_ops env fmc env.key_format kb []
        IPROTO_DELETE is_main r
       match c.stmt with
       | none => (c.region, none)
       | some s =>
         match vy_stmt_meta_decode meta s with
         | none => (c.region, none)
         | some s1 => (c.region, some (vy_stmt_set_lsn s1 l))) := by
  simp only [vy_stmt_decode, xrow_decode_dml]
  norm_num [IPROTO_DELETE, IPROTO_INSERT, IPROTO_REPLACE, IPROTO_UPSERT]
  cases (vy_stmt_new_with_ops env fmc env.key_format kb [] 5 is_main r).stmt
      with
  | none => rfl
  | some s => cases vy_stmt_meta_decode meta s <;> rfl

/-- Unfolding of `vy_stmt_decode` on an UPSERT request: the operations
range becomes the single operations blob. -/
theorem vy_stmt_decode_upsert_eq (env : VyStmtEnv) (fmc : FieldMapCreate)
    (format : TupleFormat) (t0 : Nat) (l : Int) (sp : Nat)
    (ky : Option (List Nat)) (tb ob : List Nat) (meta : Option (List Nat))
    (is_main : Bool) (r : Region) :
    vy_stmt_decode env fmc format
      { type := t0, lsn := l
        body := some { type := IPROTO_UPSERT, space_id := sp, key := ky
                       tuple := some tb, ops := some ob, tuple_meta := meta } }
      is_main r =
      (let c := vy_stmt_new_with_ops env fmc format tb [ob]
        IPROTO_UPSERT is_main r
       match c.stmt with
       | none => (c.region, none)
       | some s =>
         match vy_stmt_meta_decode meta s with
         | none => (c.region, none)
         | some s1 => (c.region, some (vy_stmt_set_lsn s1 l))) := by
  simp only [vy_stmt_decode, xrow_decode_dml]
  norm_num [IPROTO_DELETE, IPROTO_INSERT, IPROTO_REPLACE, IPROTO_UPSERT]
  cases (vy_stmt_new_with_ops env fmc format tb [ob] 9 is_main r).stmt
      with
  | none => rfl
  | some s => cases vy_stmt_meta_decode meta s <;> rfl

/-- `vy_stmt_decode_insert_replace_eq` specialized to INSERT. -/
theorem vy_stmt_decode_insert_eq (env : VyStmtEnv) (fmc : FieldMapCreate)
    (format : TupleFormat) (t0 : Nat) (l : Int) (sp : Nat)
    (ky o : Option (List Nat)) (tb : List Nat) (meta : Option (List Nat))
    (is_main : Bool) (r : Region) :
    vy_stmt_decode env fmc format
      { type := t0, lsn := l
        body := some { type := IPROTO_INSERT, space_id := sp, key := ky
                       tuple := some tb, ops := o, tuple_meta := meta } }
      is_main r =
      (let c := vy_stmt_new_with_ops env fmc format tb [] IPROTO_INSERT
        is_main r
       match c.stmt with
       | none => (c.region, none)
       | some s =>
         match vy_stmt_meta_decode meta s with
         | none => (c.region, none)
         | some s1 => (c.region, some (vy_stmt_set_lsn s1 l))) :=
  vy_stmt_decode_insert_replace_eq env fmc format t0 l IPROTO_INSERT sp ky o
    tb meta is_main r (Or.inl rfl)

/-- `vy_stmt_decode_insert_replace_eq` specialized to REPLACE. -/
theorem vy_stmt_decode_replace_eq (env : VyStmtEnv) (fmc : FieldMapCreate)
    (format : TupleFormat) (t0 : Nat) (l : Int) (sp : Nat)
    (ky o : Option (List Nat)) (tb : List Nat) (meta : Option (List Nat))
    (is_main : Bool) (r : Region) :
    vy_stmt_decode env fmc format
      { type := t0, lsn := l
        body := some { type := IPROTO_REPLACE, space_id := sp, key := ky
                       tuple := some tb, ops := o, tuple_meta := meta } }
      is_main r =
      (let c := vy_stmt_new_with_ops env fmc format tb [] IPROTO_REPLACE
        is_main r
       match c.stmt with
       | none => (c.region, none)
       | some s =>
         match vy_stmt_meta_decode meta s with
         | none => (c.region, none)
         | some s1 => (c.region, some (vy_stmt_set_lsn s1 l))) :=
  vy_stmt_decode_insert_replace_eq env fmc format t0 l IPROTO_REPLACE sp ky o
    tb meta is_main r (Or.inr rfl)

/-- C5 (amended): `vy_stmt_replace_from_upsert` on an upsert whose payload
splits into `dataPart ++ opsPart` produces a Replace of payload length
exactly `dataPart.length`, bulk-copies the field map and the leading
payload bytes — the header is freshly initialized by the allocator
(reference count 1, flags 0) — retags the result as Replace and preserves
the LSN; the result's payload is exactly the upsert's leading payload
bytes. -/
theorem C5_upsert_demotion_amended (env : VyStmtEnv) (format : TupleFormat)
    (upsert : VyStmt) (is_main : Bool) (dataPart opsPart : List Nat)
    (hsplit : vy_upsert_data_range upsert = some (dataPart, opsPart))
    (hfit : sizeof_vy_stmt + field_map_size format + dataPart.length ≤
      env.max_tuple_size) :
    ∃ rep : VyStmt,
      vy_stmt_replace_from_upsert env format upsert is_main = some rep ∧
      rep.bsize = dataPart.length ∧
      rep.data = dataPart ∧
      rep.type = IPROTO_REPLACE ∧
      rep.lsn = upsert.lsn ∧
      rep.field_map = upsert.field_map ∧
      rep.refs = 1 ∧
      rep.flags = 0 ∧
      dataPart ++ opsPart = tuple_data_range upsert := by
  have hjoin : dataPart ++ opsPart = tuple_data_range upsert := by
    simp only [vy_upsert_data_range] at hsplit
    cases hmn : mp_next (tuple_data_range upsert) with
    | none => rw [hmn] at hsplit; cases hsplit
    | some rest =>
      rw [hmn] at hsplit
      cases hsplit
      exact suffix_take_append (mp_next_suffix hmn)
  simp only [vy_stmt_replace_from_upsert, hsplit,
    vy_stmt_alloc_ok env format dataPart.length is_main hfit]
  exact ⟨_, rfl, rfl, rfl, rfl, rfl, rfl, rfl, rfl, hjoin⟩

/-- Witness for C5 (amended) at a concrete upsert: payload
`[0x91, 0x01]` plus one trailing empty operations array `[0x90]`. -/
theorem C5_upsert_demotion_amended_witness :
    vy_upsert_data_range
      { refs := 3, format_id := 0, bsize := 3, data_offset := 32, lsn := 7
        type := IPROTO_UPSERT, flags := 2, field_map := []
        data := [0x91, 0x01, 0x90] } = some ([0x91, 0x01], [0x90]) ∧
    (∃ rep : VyStmt,
      vy_stmt_replace_from_upsert vy_stmt_env_create vy_stmt_key_format
        { refs := 3, format_id := 0, bsize := 3, data_offset := 32, lsn := 7
          type := IPROTO_UPSERT, flags := 2, field_map := []
          data := [0x91, 0x01, 0x90] } true = some rep ∧
      rep.bsize = ([0x91, 0x01] : List Nat).length ∧
      rep.data = [0x91, 0x01] ∧
      rep.type = IPROTO_REPLACE ∧
      rep.lsn = 7 ∧
      rep.field_map = [] ∧
      rep.refs = 1 ∧
      rep.flags = 0 ∧
      [0x91, 0x01] ++ [0x90] = tuple_data_range
        { refs := 3, format_id := 0, bsize := 3, data_offset := 32, lsn := 7
          type := IPROTO_UPSERT, flags := 2, field_map := []
          data := [0x91, 0x01, 0x90] }) :=
  ⟨by decide,
   C5_upsert_demotion_amended vy_stmt_env_create vy_stmt_key_format
     { refs := 3, format_id := 0, bsize := 3, data_offset := 32, lsn := 7
       type := IPROTO_UPSERT, flags := 2, field_map := []
       data := [0x91, 0x01, 0x90] } true [0x91, 0x01] [0x90]
     (by decide) (by decide)⟩

/-- Counterexample for C5 as frozen: demotion does not bulk-copy the
header — the code's result has a freshly initialized header (flags 0,
refs 1) where the spec's "bulk-copies header+field-map+data" reading
would carry the upsert's flags (2) and refs (3) over. -/
theorem C5_counterexample :
    (vy_stmt_replace_from_upsert vy_stmt_env_create vy_stmt_key_format
      { refs := 3, format_id := 0, bsize := 3, data_offset := 32, lsn := 7
        type := IPROTO_UPSERT, flags := 2, field_map := []
        data := [0x91, 0x01, 0x90] } true).map VyStmt.flags = some 0 ∧
    (vy_stmt_replace_from_upsert_spec
      { refs := 3, format_id := 0, bsize := 3, data_offset := 32, lsn := 7
        type := IPROTO_UPSERT, flags := 2, field_map := []
        data := [0x91, 0x01, 0x90] }).map VyStmt.flags = some 2 ∧
    vy_stmt_replace_from_upsert vy_stmt_env_create vy_stmt_key_format
      { refs := 3, format_id := 0, bsize := 3, data_offset := 32, lsn := 7
        type := IPROTO_UPSERT, flags := 2, field_map := []
        data := [0x91, 0x01, 0x90] } true ≠
    vy_stmt_replace_from_upsert_spec
      { refs := 3, format_id := 0, bsize := 3, data_offset := 32, lsn := 7
        type := IPROTO_UPSERT, flags := 2, field_map := []
        data := [0x91, 0x01, 0x90] } := by
  decide

/-- C6 (amended): for an Insert or Replace record the primary encoder
emits the record's full payload range as the tuple byte range; the
secondary encoder emits the extracted key bytes as the tuple byte range —
the full payload only in the degenerate case where the record is a bare
key, since the secondary encoder key-extracts every non-bare-key record
before switching on the type. -/
theorem C6_insert_replace_tuple_range (fmt : TupleFormat) (value : VyStmt)
    (key_def cmp_def : KeyDef) (space_id : Nat) (extracted : List Nat)
    (htype : value.type = IPROTO_INSERT ∨ value.type = IPROTO_REPLACE)
    (hx : (if vy_stmt_is_key fmt value then some (tuple_data_range value)
           else tuple_extract_key value cmp_def) = some extracted) :
    (∃ x req, vy_stmt_encode_primary fmt value key_def space_id = some x ∧
       x.body = some req ∧ req.tuple = some (tuple_data_range value)) ∧
    (∃ y req, vy_stmt_encode_secondary fmt value cmp_def = some y ∧
       y.body = some req ∧ req.tuple = some extracted) := by
  constructor
  · unfold vy_stmt_encode_primary
    rcases htype with ht | ht <;>
      simp [ht, IPROTO_INSERT, IPROTO_REPLACE, IPROTO_DELETE, IPROTO_UPSERT,
        xrow_encode_dml]
  · unfold vy_stmt_encode_secondary
    rw [hx]
    rcases htype with ht | ht <;>
      simp [ht, IPROTO_INSERT, IPROTO_REPLACE, IPROTO_DELETE, IPROTO_UPSERT,
        xrow_encode_dml]

/-- Witness for C6 (amended) at a concrete Insert under a non-key format:
primary emits the payload `[0x92, 0x05, 0x06]`, secondary emits the
extracted key `[0x91, 0x05]`. -/
theorem C6_insert_replace_tuple_range_witness :
    ((if vy_stmt_is_key
          { id := 1, field_map_slots := 0, index_field_count := 1
            fields_depth := 1, fields := [] }
          { refs := 1, format_id := 1, bsize := 3, data_offset := 32, lsn := 4
            type := IPROTO_INSERT, flags := 0, field_map := []
            data := [0x92, 0x05, 0x06] }
        then some (tuple_data_range
          { refs := 1, format_id := 1, bsize := 3, data_offset := 32, lsn := 4
            type := IPROTO_INSERT, flags := 0, field_map := []
            data := [0x92, 0x05, 0x06] })
        else tuple_extract_key
          { refs := 1, format_id := 1, bsize := 3, data_offset := 32, lsn := 4
            type := IPROTO_INSERT, flags := 0, field_map := []
            data := [0x92, 0x05, 0x06] } { parts := [0] }) =
      some [0x91, 0x05]) ∧
    ((∃ x req, vy_stmt_encode_primary
        { id := 1, field_map_slots := 0, index_field_count := 1
          fields_depth := 1, fields := [] }
        { refs := 1, format_id := 1, bsize := 3, data_offset := 32, lsn := 4
          type := IPROTO_INSERT, flags := 0, field_map := []
          data := [0x92, 0x05, 0x06] } { parts := [0] } 77 = some x ∧
       x.body = some req ∧ req.tuple = some (tuple_data_range
         { refs := 1, format_id := 1, bsize := 3, data_offset := 32, lsn := 4
           type := IPROTO_INSERT, flags := 0, field_map := []
           data := [0x92, 0x05, 0x06] })) ∧
     (∃ y req, vy_stmt_encode_secondary
        { id := 1, field_map_slots := 0, index_field_count := 1
          fields_depth := 1, fields := [] }
        { refs := 1, format_id := 1, bsize := 3, data_offset := 32, lsn := 4
          type := IPROTO_INSERT, flags := 0, field_map := []
          data := [0x92, 0x05, 0x06] } { parts := [0] } = some y ∧
       y.body = some req ∧ req.tuple = some [0x91, 0x05])) :=
  ⟨by decide,
   C6_insert_replace_tuple_range
     { id := 1, field_map_slots := 0, index_field_count := 1
       fields_depth := 1, fields := [] }
     { refs := 1, format_id := 1, bsize := 3, data_offset := 32, lsn := 4
       type := IPROTO_INSERT, flags := 0, field_map := []
       data := [0x92, 0x05, 0x06] }
     { parts := [0] } { parts := [0] } 77 [0x91, 0x05]
     (Or.inl rfl) (by decide)⟩

/-- Counterexample for C6 as frozen: under the secondary encoder an Insert
record's tuple byte range is the extracted key, not the record's full
payload range. -/
theorem C6_counterexample :
    ((vy_stmt_encode_secondary
        { id := 1, field_map_slots := 0, index_field_count := 1
          fields_depth := 1, fields := [] }
        { refs := 1, format_id := 1, bsize := 3, data_offset := 32, lsn := 4
          type := IPROTO_INSERT, flags := 0, field_map := []
          data := [0x92, 0x05, 0x06] }
        { parts := [0] }).bind (fun x => x.body)).bind (fun req => req.tuple)
      = some [0x91, 0x05] ∧
    tuple_data_range
      { refs := 1, format_id := 1, bsize := 3, data_offset := 32, lsn := 4
        type := IPROTO_INSERT, flags := 0, field_map := []
        data := [0x92, 0x05, 0x06] } = [0x92, 0x05, 0x06] ∧
    ([0x91, 0x05] : List Nat) ≠ [0x92, 0x05, 0x06] := by
  decide


/-- The upsert split depends only on the payload byte range. -/
theorem vy_stmt_upsert_ops_congr {a b : VyStmt}
    (h : tuple_data_range a = tuple_data_range b) :
    vy_stmt_upsert_ops a = vy_stmt_upsert_ops b := by
  unfold vy_stmt_upsert_ops vy_upsert_data_range
  rw [h]

/-- C1 (amended): decoding the primary wire encoding of a record of type
Insert, Replace, Delete or Upsert leaves the region untouched and yields a
record with identical type, identical LSN, and flags equal to the
original's flags after the primary persistence masking rule; the decoded
payload equals the encoded body bytes `kbytes` — the record's full payload
for Insert/Replace/Upsert (for Upsert additionally with identical trailing
operation bytes), while for Delete `kbytes` is the record's own payload
exactly when the record is a bare key and the extracted key otherwise.
The hypotheses name the encoded body bytes, require a well-formed upsert
split, a succeeding field-map oracle, and the rebuilt sizes to fit the
environment limit. -/
theorem C1_roundtrip_amended (env : VyStmtEnv) (fmc : FieldMapCreate)
    (fmt format : TupleFormat) (value : VyStmt) (key_def : KeyDef)
    (space_id : Nat) (is_main : Bool) (r : Region) (kbytes : List Nat)
    (htype : value.type = IPROTO_INSERT ∨ value.type = IPROTO_REPLACE ∨
             value.type = IPROTO_DELETE ∨ value.type = IPROTO_UPSERT)
    (hkey : (if value.type = IPROTO_DELETE then
               (if vy_stmt_is_key fmt value then some (tuple_data_range value)
                else tuple_extract_key value key_def)
             else some (tuple_data_range value)) = some kbytes)
    (hup : value.type = IPROTO_UPSERT → (vy_upsert_data_range value).isSome)
    (hfmc : ∀ f tb, (fmc f tb).isSome)
    (hfit : sizeof_vy_stmt + field_map_size format + kbytes.length ≤
      env.max_tuple_size)
    (hfitk : sizeof_vy_stmt + field_map_size env.key_format + kbytes.length ≤
      env.max_tuple_size) :
    ∃ x, vy_stmt_encode_primary fmt value key_def space_id = some x ∧
      (vy_stmt_decode env fmc format x is_main r).1 = r ∧
      (vy_stmt_decode env fmc format x is_main r).2.map VyStmt.type =
        some value.type ∧
      (vy_stmt_decode env fmc format x is_main r).2.map VyStmt.lsn =
        some value.lsn ∧
      (vy_stmt_decode env fmc format x is_main r).2.map VyStmt.flags =
        some (vy_stmt_persistent_flags value true) ∧
      (vy_stmt_decode env fmc format x is_main r).2.map VyStmt.data =
        some kbytes ∧
      (vy_stmt_decode env fmc format x is_main r).2.map VyStmt.bsize =
        some kbytes.length ∧
      (value.type = IPROTO_UPSERT →
        (vy_stmt_decode env fmc format x is_main r).2.map vy_stmt_upsert_ops =
          some (vy_stmt_upsert_ops value)) := by
  rcases htype with ht | ht | ht | ht
  · -- INSERT
    rw [ht, if_neg (by decide : ¬ (IPROTO_INSERT = IPROTO_DELETE))] at hkey
    injection hkey with hkb
    subst hkb
    obtain ⟨fm, hfm⟩ :=
      Option.isSome_iff_exists.mp (hfmc format (tuple_data_range value))
    have hno := vy_stmt_new_with_ops_ok env fmc format
      (tuple_data_range value) [] IPROTO_INSERT is_main r fm hfm
      (by simpa using hfit)
    have hx : vy_stmt_encode_primary fmt value key_def space_id = some
        { type := IPROTO_INSERT, lsn := value.lsn
          body := some { type := IPROTO_INSERT, space_id := space_id
                         key := none, tuple := some (tuple_data_range value)
                         ops := none
                         tuple_meta := vy_stmt_meta_encode value true } } := by
      simp [vy_stmt_encode_primary, ht, request_zero, xrow_encode_dml,
        IPROTO_DELETE, IPROTO_INSERT, IPROTO_REPLACE, IPROTO_UPSERT]
    refine ⟨_, hx, ?_, ?_, ?_, ?_, ?_, ?_, ?_⟩ <;>
      rw [vy_stmt_decode_insert_eq, hno] <;>
      simp only [vy_stmt_meta_roundtrip] <;>
      first
      | rfl
      | (intro hupty; exact absurd (ht.symm.trans hupty) (by decide))
      | (by_cases hm0 : vy_stmt_persistent_flags value true = 0 <;>
          · have hle := vy_stmt_persistent_flags_le value true
            simp [hm0, vy_stmt_set_lsn, vy_stmt_set_flags, ht] <;> omega)
  · -- REPLACE
    rw [ht, if_neg (by decide : ¬ (IPROTO_REPLACE = IPROTO_DELETE))] at hkey
    injection hkey with hkb
    subst hkb
    obtain ⟨fm, hfm⟩ :=
      Option.isSome_iff_exists.mp (hfmc format (tuple_data_range value))
    have hno := vy_stmt_new_with_ops_ok env fmc format
      (tuple_data_range value) [] IPROTO_REPLACE is_main r fm hfm
      (by simpa using hfit)
    have hx : vy_stmt_encode_primary fmt value key_def space_id = some
        { type := IPROTO_REPLACE, lsn := value.lsn
          body := some { type := IPROTO_REPLACE, space_id := space_id
                         key := none, tuple := some (tuple_data_range value)
                         ops := none
                         tuple_meta := vy_stmt_meta_encode value true } } := by
      simp [vy_stmt_encode_primary, ht, request_zero, xrow_encode_dml,
        IPROTO_DELETE, IPROTO_INSERT, IPROTO_REPLACE, IPROTO_UPSERT]
    refine ⟨_, hx, ?_, ?_, ?_, ?_, ?_, ?_, ?_⟩ <;>
      rw [vy_stmt_decode_replace_eq, hno] <;>
      simp only [vy_stmt_meta_roundtrip] <;>
      first
      | rfl
      | (intro hupty; exact absurd (ht.symm.trans hupty) (by decide))
      | (by_cases hm0 : vy_stmt_persistent_flags value true = 0 <;>
          · have hle := vy_stmt_persistent_flags_le value true
            simp [hm0, vy_stmt_set_lsn, vy_stmt_set_flags, ht] <;> omega)
  · -- DELETE
    rw [ht, if_pos rfl] at hkey
    obtain ⟨fm, hfm⟩ :=
      Option.isSome_iff_exists.mp (hfmc env.key_format kbytes)
    have hno := vy_stmt_new_with_ops_ok env fmc env.key_format kbytes []
      IPROTO_DELETE is_main r fm hfm (by simpa using hfitk)
    have hx : vy_stmt_encode_primary fmt value key_def space_id = some
        { type := IPROTO_DELETE, lsn := value.lsn
          body := some { type := IPROTO_DELETE, space_id := space_id
                         key := some kbytes, tuple := none, ops := none
                         tuple_meta := vy_stmt_meta_encode value true } } := by
      simp [vy_stmt_encode_primary, ht, hkey, request_zero, xrow_encode_dml,
        IPROTO_DELETE, IPROTO_INSERT, IPROTO_REPLACE, IPROTO_UPSERT]
    refine ⟨_, hx, ?_, ?_, ?_, ?_, ?_, ?_, ?_⟩ <;>
      rw [vy_stmt_decode_delete_eq, hno] <;>
      simp only [vy_stmt_meta_roundtrip] <;>
      first
      | rfl
      | (intro hupty; exact absurd (ht.symm.trans hupty) (by decide))
      | (by_cases hm0 : vy_stmt_persistent_flags value true = 0 <;>
          · have hle := vy_stmt_persistent_flags_le value true
            simp [hm0, vy_stmt_set_lsn, vy_stmt_set_flags, ht] <;> omega)
  · -- UPSERT
    rw [ht, if_neg (by decide : ¬ (IPROTO_UPSERT = IPROTO_DELETE))] at hkey
    injection hkey with hkb
    subst hkb
    obtain ⟨⟨dp, op⟩, hsp⟩ := Option.isSome_iff_exists.mp (hup ht)
    have hjoin := vy_upsert_data_range_join hsp
    have hlen : (tuple_data_range value).length = dp.length + op.length := by
      rw [← hjoin]
      simp
    obtain ⟨fm, hfm⟩ := Option.isSome_iff_exists.mp (hfmc format dp)
    have hno := vy_stmt_new_with_ops_ok env fmc format dp [op]
      IPROTO_UPSERT is_main r fm hfm
      (by simp only [List.map, List.sum_cons, List.sum_nil]; omega)
    have hx : vy_stmt_encode_primary fmt value key_def space_id = some
        { type := IPROTO_UPSERT, lsn := value.lsn
          body := some { type := IPROTO_UPSERT, space_id := space_id
                         key := none, tuple := some dp, ops := some op
                         tuple_meta := vy_stmt_meta_encode value true } } := by
      simp [vy_stmt_encode_primary, ht, hsp, request_zero, xrow_encode_dml,
        IPROTO_DELETE, IPROTO_INSERT, IPROTO_REPLACE, IPROTO_UPSERT]
    have hS0data : dp ++ List.flatten [op] = tuple_data_range value := by
      simpa using hjoin
    have hS0len : dp.length + (List.map List.length [op]).sum =
        (tuple_data_range value).length := by
      simp only [List.map, List.sum_cons, List.sum_nil]
      omega
    have hrange : ∀ s : VyStmt, s.data = dp ++ List.flatten [op] →
        s.bsize = dp.length + (List.map List.length [op]).sum →
        tuple_data_range s = tuple_data_range value := by
      intro s h1 h2
      have hs : tuple_data_range s = (dp ++ List.flatten [op]).take
          (dp.length + (List.map List.length [op]).sum) := by
        unfold tuple_data_range
        rw [h1, h2]
      rw [hs, hS0len, ← hS0data]
      exact List.take_length _
    refine ⟨_, hx, ?_, ?_, ?_, ?_, ?_, ?_, ?_⟩ <;>
      rw [vy_stmt_decode_upsert_eq, hno] <;>
      simp only [vy_stmt_meta_roundtrip] <;>
      first
      | rfl
      | (by_cases hm0 : vy_stmt_persistent_flags value true = 0 <;>
          · have hle := vy_stmt_persistent_flags_le value true
            simp [hm0, vy_stmt_set_lsn, vy_stmt_set_flags, ht, hjoin,
              hlen] <;> omega)
      | (intro hop
         by_cases hm0 : vy_stmt_persistent_flags value true = 0 <;>
         · simp only [hm0, if_true, if_false, ite_true, ite_false,
             Option.map_some, Option.some.injEq, eq_self_iff_true, not_true,
             not_false_iff]
           refine congrArg some (vy_stmt_upsert_ops_congr
             (hrange _ ?_ ?_)) <;>
             simp [hm0, vy_stmt_set_lsn, vy_stmt_set_flags])

/-- Witness for C1 (amended) at a concrete Insert: the decoded payload is
the full original payload. -/
theorem C1_roundtrip_amended_witness :
    ∃ x, vy_stmt_encode_primary
        { id := 1, field_map_slots := 0, index_field_count := 1
          fields_depth := 1, fields := [] }
        { refs := 1, format_id := 1, bsize := 2, data_offset := 32, lsn := 11
          type := IPROTO_INSERT, flags := 6, field_map := []
          data := [0x91, 0x07] }
        { parts := [0] } 5 = some x ∧
      (vy_stmt_decode vy_stmt_env_create (fun _ _ => some [])
        { id := 1, field_map_slots := 0, index_field_count := 1
          fields_depth := 1, fields := [] } x true ⟨0⟩).2.map VyStmt.data =
        some [0x91, 0x07] ∧
      (vy_stmt_decode vy_stmt_env_create (fun _ _ => some [])
        { id := 1, field_map_slots := 0, index_field_count := 1
          fields_depth := 1, fields := [] } x true ⟨0⟩).2.map VyStmt.flags =
        some 2 := by
  obtain ⟨x, hx, -, -, -, hflags, hdata, -, -⟩ :=
    C1_roundtrip_amended vy_stmt_env_create (fun _ _ => some [])
      { id := 1, field_map_slots := 0, index_field_count := 1
        fields_depth := 1, fields := [] }
      { id := 1, field_map_slots := 0, index_field_count := 1
        fields_depth := 1, fields := [] }
      { refs := 1, format_id := 1, bsize := 2, data_offset := 32, lsn := 11
        type := IPROTO_INSERT, flags := 6, field_map := []
        data := [0x91, 0x07] }
      { parts := [0] } 5 true ⟨0⟩ [0x91, 0x07]
      (Or.inl rfl) (by decide) (by decide) (fun f tb => rfl) (by decide)
      (by decide)
  exact ⟨x, hx, hdata, hflags.trans (by decide)⟩

/-- Counterexample for C1 as frozen: a Delete that is not a bare key
round-trips type and LSN, but its decoded payload is the extracted key,
not the record's full payload bytes. -/
theorem C1_counterexample :
    ∃ x, vy_stmt_encode_primary
        { id := 1, field_map_slots := 0, index_field_count := 1
          fields_depth := 1, fields := [] }
        { refs := 1, format_id := 1, bsize := 3, data_offset := 32, lsn := 7
          type := IPROTO_DELETE, flags := 0, field_map := [0]
          data := [0x92, 0x05, 0x06] }
        { parts := [0] } 0 = some x ∧
      (vy_stmt_decode vy_stmt_env_create (fun _ _ => some [])
        vy_stmt_key_format x true ⟨0⟩).2.map VyStmt.type =
        some IPROTO_DELETE ∧
      (vy_stmt_decode vy_stmt_env_create (fun _ _ => some [])
        vy_stmt_key_format x true ⟨0⟩).2.map VyStmt.lsn = some 7 ∧
      (vy_stmt_decode vy_stmt_env_create (fun _ _ => some [])
        vy_stmt_key_format x true ⟨0⟩).2.map VyStmt.data =
        some [0x91, 0x05] ∧
      tuple_data_range
        { refs := 1, format_id := 1, bsize := 3, data_offset := 32, lsn := 7
          type := IPROTO_DELETE, flags := 0, field_map := [0]
          data := [0x92, 0x05, 0x06] } = [0x92, 0x05, 0x06] ∧
      ([0x91, 0x05] : List Nat) ≠ [0x92, 0x05, 0x06] := by
  refine ⟨{ type := IPROTO_DELETE, lsn := 7
            body := some { type := IPROTO_DELETE, space_id := 0
                           key := some [0x91, 0x05], tuple := none
                           ops := none, tuple_meta := none } },
          ?_, ?_, ?_, ?_, ?_, ?_⟩ <;> decide

/-! ### Structured MessagePack values

Used to state the surrogate-delete properties over well-formed source
tuples: a structured value together with its canonical byte encoding. -/

/-- A structured MessagePack value. -/
inductive MPVal where
  | nil
  | bool (b : Bool)
  | uint (n : Nat)
  | str (s : List Nat)
  | arr (xs : List MPVal)
  | map (kvs : List (MPVal × MPVal))

mutual

/-- Canonical byte encoding of a structured value. -/
def MPVal.enc : MPVal → List Nat
  | .nil => mp_encode_nil
  | .bool b => mp_encode_bool b
  | .uint n => mp_encode_uint n
  | .str s => mp_encode_str s
  | .arr xs => mp_encode_array xs.length ++ MPVal.encList xs
  | .map kvs => mp_encode_map kvs.length ++ MPVal.encPairs kvs

/-- Concatenated encodings of a list of values. -/
def MPVal.encList : List MPVal → List Nat
  | [] => []
  | v :: vs => MPVal.enc v ++ MPVal.encList vs

/-- Concatenated encodings of key/value pairs. -/
def MPVal.encPairs : List (MPVal × MPVal) → List Nat
  | [] => []
  | (k, v) :: kvs => MPVal.enc k ++ MPVal.enc v ++ MPVal.encPairs kvs

end

mutual

/-- Total number of MessagePack objects in a value (the headers visited
when skipping it). -/
def MPVal.nodes : MPVal → Nat
  | .nil => 1
  | .bool _ => 1
  | .uint _ => 1
  | .str _ => 1
  | .arr xs => MPVal.nodesList xs + 1
  | .map kvs => MPVal.nodesPairs kvs + 1

/-- Total object count of a list of values. -/
def MPVal.nodesList : List MPVal → Nat
  | [] => 0
  | v :: vs => MPVal.nodesList vs + MPVal.nodes v

/-- Total object count of a list of pairs. -/
def MPVal.nodesPairs : List (MPVal × MPVal) → Nat
  | [] => 0
  | (k, v) :: kvs => MPVal.nodesPairs kvs + MPVal.nodes v + MPVal.nodes k

end

mutual

/-- Well-formedness of a source value for the surrogate traversal: all
counts fit their wire widths (so the canonical encoding decodes back) and
every map key is a string — the shape `tuple_validate` guarantees for
stored tuples (the C traversal silently drops non-string-keyed pairs while
keeping the emitted map header count, producing output only valid for
validated tuples). -/
def MPVal.good : MPVal → Bool
  | .nil => true
  | .bool _ => true
  | .uint n => decide (n < 2 ^ 64)
  | .str s => decide (s.length < 2 ^ 32)
  | .arr xs => decide (xs.length < 2 ^ 32) && MPVal.goodList xs
  | .map kvs => decide (kvs.length < 2 ^ 32) && MPVal.goodPairs kvs

/-- Well-formedness of a list of values. -/
def MPVal.goodList : List MPVal → Bool
  | [] => true
  | v :: vs => MPVal.good v && MPVal.goodList vs

/-- Well-formedness of map pairs: string keys only. -/
def MPVal.goodPairs : List (MPVal × MPVal) → Bool
  | [] => true
  | (k, v) :: kvs =>
    (match k with
     | .str s => decide (s.length < 2 ^ 32)
     | _ => false) && MPVal.good v && MPVal.goodPairs kvs

end

/-- Apply recorded slot writes to a field map. -/
def applyWrites (fmap : List Nat) (ws : List (Nat × Nat)) : List Nat :=
  ws.foldl (fun m p => m.set p.1 p.2) fmap

mutual

/-- The spec-side description of the surrogate traversal for the value of
a matched indexed field `fld`, following the spec's words: "if the value
itself is a nested array/map and the traversal has not reached maximum
depth, recurse into it (push a new frame, descend the field tree) instead
of copying verbatim; otherwise copy the element verbatim".  Returns the
emitted bytes, the slot writes (slot, payload offset) and the number of
loop iterations spent beyond the current one; `base` is the payload offset
at which the value is emitted, `avail` the remaining stack depth. -/
def surrogateSpecVal (fld : TupleFieldTree) (avail base : Nat) :
    MPVal → List Nat × List (Nat × Nat) × Nat
  | .arr xs =>
    match avail with
    | 0 => (MPVal.enc (.arr xs), [], 0)
    | a + 1 =>
      let r := surrogateSpecElems fld.children a
        (base + (mp_encode_array xs.length).length) 0 xs
      (mp_encode_array xs.length ++ r.1, r.2.1, r.2.2 + 1)
  | .map kvs =>
    match avail with
    | 0 => (MPVal.enc (.map kvs), [], 0)
    | a + 1 =>
      let r := surrogateSpecPairs fld.children a
        (base + (mp_encode_map kvs.length).length) kvs
      (mp_encode_map kvs.length ++ r.1, r.2.1, r.2.2 + 1)
  | v => (MPVal.enc v, [], 0)

/-- The spec-side description of one addressed element, following the
spec's words: "no match, or matched field is not part of an index → skip:
consume the source element, emit a nil placeholder in the output; matched
and part of an index → if the field has an assigned field-map slot, record
the current output write offset into that slot". -/
def surrogateSpecStep (ch : List (JsonToken × TupleFieldTree))
    (avail base : Nat) (tok : JsonToken) (v : MPVal) :
    List Nat × List (Nat × Nat) × Nat :=
  match json_tree_lookup ch tok with
  | none => (mp_encode_nil, [], 0)
  | some fld =>
    if fld.is_key_part then
      let r := surrogateSpecVal fld avail base v
      (r.1,
       (match fld.offset_slot with
        | some slot => [(slot, base)]
        | none => []) ++ r.2.1,
       r.2.2)
    else (mp_encode_nil, [], 0)

/-- The spec-side traversal of array elements, positional tokens starting
at index `i`. -/
def surrogateSpecElems (ch : List (JsonToken × TupleFieldTree))
    (avail base i : Nat) : List MPVal → List Nat × List (Nat × Nat) × Nat
  | [] => ([], [], 0)
  | v :: vs =>
    let r1 := surrogateSpecStep ch avail base (.num i) v
    let r2 := surrogateSpecElems ch avail (base + r1.1.length) (i + 1) vs
    (r1.1 ++ r2.1, r1.2.1 ++ r2.2.1, r1.2.2 + 1 + r2.2.2)

/-- The spec-side traversal of map pairs: the string key is re-emitted,
then the value is addressed by the key token. -/
def surrogateSpecPairs (ch : List (JsonToken × TupleFieldTree))
    (avail base : Nat) :
    List (MPVal × MPVal) → List Nat × List (Nat × Nat) × Nat
  | [] => ([], [], 0)
  | (k, v) :: kvs =>
    match k with
    | .str s0 =>
      let ke := mp_encode_str s0
      let r1 := surrogateSpecStep ch avail (base + ke.length) (.str s0) v
      let r2 := surrogateSpecPairs ch avail (base + ke.length + r1.1.length)
        kvs
      (ke ++ r1.1 ++ r2.1, r1.2.1 ++ r2.2.1, r1.2.2 + 1 + r2.2.2)
    | _ => surrogateSpecPairs ch avail base kvs

end

/-! ### Byte-level facts about the canonical encoding -/

theorem natBE_length (w n : Nat) : (natBE w n).length = w := by
  induction w generalizing n with
  | zero => rfl
  | succ w ih => simp [natBE, ih]

/-- Big-endian value of a byte list (mirrors the recursion of `readBE`). -/
def valBE : List Nat → Nat
  | [] => 0
  | b :: bs => b * 256 ^ bs.length + valBE bs

theorem readBE_exact (bs rest : List Nat) :
    readBE bs.length (bs ++ rest) = some (valBE bs, rest) := by
  induction bs with
  | nil => rfl
  | cons b bs ih =>
    simp only [List.length_cons, List.cons_append, readBE, List.append_eq,
      ih, valBE]

theorem valBE_append_singleton (xs : List Nat) (b : Nat) :
    valBE (xs ++ [b]) = valBE xs * 256 + b := by
  induction xs with
  | nil => simp [valBE]
  | cons a xs ih =>
    simp only [List.cons_append, valBE, ih, List.append_eq,
      List.length_append, List.length_cons, List.length_nil]
    ring

theorem valBE_natBE (w n : Nat) : valBE (natBE w n) = n % 256 ^ w := by
  induction w generalizing n with
  | zero => simp [natBE, valBE, Nat.mod_one]
  | succ w ih =>
    simp only [natBE, valBE_append_singleton, ih]
    rw [pow_succ, mul_comm (256 ^ w) 256, Nat.mod_mul]
    ring

theorem readBE_natBE (w n : Nat) (h : n < 256 ^ w) (rest : List Nat) :
    readBE w (natBE w n ++ rest) = some (n, rest) := by
  have hx := readBE_exact (natBE w n) rest
  rw [natBE_length] at hx
  rw [hx, valBE_natBE, Nat.mod_eq_of_lt h]

theorem takeExact_append (pre rest : List Nat) :
    takeExact pre.length (pre ++ rest) = some (pre, rest) := by
  unfold takeExact
  rw [if_pos (by simp)]
  simp

/-- One unfolding step of `mp_skip`. -/
theorem mp_skip_cons (f k b : Nat) (bs : List Nat) {k2 : Nat}
    {rest : List Nat} (h : mp_skip_head b bs = some (k2, rest)) :
    mp_skip (f + 1) (k + 1) (b :: bs) = mp_skip f (k + k2) rest := by
  simp [mp_skip, h]

theorem headClass_fixuint {b : Nat} (h : b ≤ 0x7f) :
    headClass b = .imm 0 := by
  unfold headClass
  rw [if_pos h]

theorem headClass_fixmap {b : Nat} (h1 : 0x80 ≤ b) (h2 : b ≤ 0x8f) :
    headClass b = .imm (2 * (b - 0x80)) := by
  unfold headClass
  rw [if_neg (by omega), if_pos h2]

theorem headClass_fixarr {b : Nat} (h1 : 0x90 ≤ b) (h2 : b ≤ 0x9f) :
    headClass b = .imm (b - 0x90) := by
  unfold headClass
  rw [if_neg (by omega), if_neg (by omega), if_pos h2]

theorem headClass_fixstr {b : Nat} (h1 : 0xa0 ≤ b) (h2 : b ≤ 0xbf) :
    headClass b = .payload (b - 0xa0) := by
  unfold headClass
  rw [if_neg (by omega), if_neg (by omega), if_neg (by omega), if_pos h2]

theorem mp_skip_head_imm {b : Nat} {n : Nat} (h : headClass b = .imm n)
    (bs : List Nat) : mp_skip_head b bs = some (n, bs) := by
  simp only [mp_skip_head, h]

theorem mp_skip_head_payload {b : Nat} {n : Nat}
    (h : headClass b = .payload n) (pre rest : List Nat)
    (hlen : pre.length = n) :
    mp_skip_head b (pre ++ rest) = some (0, rest) := by
  simp only [mp_skip_head, h]
  rw [← hlen, takeExact_append]
  rfl

theorem mp_skip_head_lenPayload {b : Nat} {w : Nat}
    (h : headClass b = .lenPayload w) (pre rest : List Nat)
    (hlen : pre.length < 256 ^ w) :
    mp_skip_head b (natBE w pre.length ++ (pre ++ rest)) =
      some (0, rest) := by
  simp only [mp_skip_head, h, readBE_natBE w pre.length hlen]
  show Option.map (fun q : List Nat × List Nat => ((0 : Nat), q.2))
      (takeExact pre.length (pre ++ rest)) = some (0, rest)
  rw [takeExact_append]
  rfl

theorem mp_skip_head_count {b : Nat} {w mult : Nat}
    (h : headClass b = .count w mult) (n : Nat) (hn : n < 256 ^ w)
    (rest : List Nat) :
    mp_skip_head b (natBE w n ++ rest) = some (mult * n, rest) := by
  simp only [mp_skip_head, h, readBE_natBE w n hn]
  rfl

/-- Nonempty: every canonical encoding starts with a header byte whose
`mp_typeof` classification matches the value's constructor. -/
def MPVal.tag : MPVal → MpType
  | .nil => .nil
  | .bool _ => .bool
  | .uint _ => .uint
  | .str _ => .str
  | .arr _ => .arr
  | .map _ => .map

theorem mp_typeof_fixuint {b : Nat} (h : b ≤ 0x7f) :
    mp_typeof b = some .uint := by
  unfold mp_typeof
  rw [if_pos h]

theorem mp_typeof_fixmap {b : Nat} (h1 : 0x80 ≤ b) (h2 : b ≤ 0x8f) :
    mp_typeof b = some .map := by
  unfold mp_typeof
  rw [if_neg (by omega), if_pos h2]

theorem mp_typeof_fixarr {b : Nat} (h1 : 0x90 ≤ b) (h2 : b ≤ 0x9f) :
    mp_typeof b = some .arr := by
  unfold mp_typeof
  rw [if_neg (by omega), if_neg (by omega), if_pos h2]

theorem mp_typeof_fixstr {b : Nat} (h1 : 0xa0 ≤ b) (h2 : b ≤ 0xbf) :
    mp_typeof b = some .str := by
  unfold mp_typeof
  rw [if_neg (by omega), if_neg (by omega), if_neg (by omega), if_pos h2]

theorem MPVal.enc_head (v : MPVal) :
    ∃ b tl, MPVal.enc v = b :: tl ∧ mp_typeof b = some (MPVal.tag v) := by
  cases v with
  | nil => exact ⟨0xc0, [], rfl, by decide⟩
  | bool b => cases b with
    | false => exact ⟨0xc2, [], rfl, by decide⟩
    | true => exact ⟨0xc3, [], rfl, by decide⟩
  | uint n =>
    show ∃ b tl, mp_encode_uint n = b :: tl ∧ _
    unfold mp_encode_uint
    split
    · next h => exact ⟨n, [], rfl, mp_typeof_fixuint h⟩
    split
    · exact ⟨0xcc, _, rfl, rfl⟩
    split
    · exact ⟨0xcd, _, rfl, rfl⟩
    split
    · exact ⟨0xce, _, rfl, rfl⟩
    · exact ⟨0xcf, _, rfl, rfl⟩
  | str s =>
    show ∃ b tl, mp_encode_str s = b :: tl ∧ _
    unfold mp_encode_str
    split
    · next h =>
      exact ⟨0xa0 + s.length, s, rfl,
        mp_typeof_fixstr (by omega) (by omega)⟩
    split
    · exact ⟨0xd9, _, rfl, rfl⟩
    split
    · exact ⟨0xda, _, rfl, rfl⟩
    · exact ⟨0xdb, _, rfl, rfl⟩
  | arr xs =>
    show ∃ b tl, mp_encode_array xs.length ++ MPVal.encList xs = b :: tl ∧ _
    unfold mp_encode_array
    split
    · next h =>
      exact ⟨0x90 + xs.length, MPVal.encList xs, rfl,
        mp_typeof_fixarr (by omega) (by omega)⟩
    split
    · exact ⟨0xdc, _, rfl, rfl⟩
    · exact ⟨0xdd, _, rfl, rfl⟩
  | map kvs =>
    show ∃ b tl, mp_encode_map kvs.length ++ MPVal.encPairs kvs = b :: tl ∧ _
    unfold mp_encode_map
    split
    · next h =>
      exact ⟨0x80 + kvs.length, MPVal.encPairs kvs, rfl,
        mp_typeof_fixmap (by omega) (by omega)⟩
    split
    · exact ⟨0xde, _, rfl, rfl⟩
    · exact ⟨0xdf, _, rfl, rfl⟩

/-- Decoding the canonical array header recovers the element count. -/
theorem mp_decode_array_enc {n : Nat} (h : n < 2 ^ 32) (rest : List Nat) :
    mp_decode_array (mp_encode_array n ++ rest) = some (n, rest) := by
  unfold mp_encode_array
  split
  · next h1 =>
    show mp_decode_array ((0x90 + n) :: rest) = some (n, rest)
    simp only [mp_decode_array]
    rw [if_pos ⟨by omega, by omega⟩,
      show 0x90 + n - 0x90 = n from by omega]
  split
  · next h1 h2 =>
    show mp_decode_array (0xdc :: (natBE 2 n ++ rest)) = some (n, rest)
    simp only [mp_decode_array]
    norm_num
    exact readBE_natBE 2 n (by omega) rest
  · next h1 h2 =>
    show mp_decode_array (0xdd :: (natBE 4 n ++ rest)) = some (n, rest)
    simp only [mp_decode_array]
    norm_num
    exact readBE_natBE 4 n (by norm_num at h ⊢; omega) rest

/-- Decoding the canonical map header recovers the pair count. -/
theorem mp_decode_map_enc {n : Nat} (h : n < 2 ^ 32) (rest : List Nat) :
    mp_decode_map (mp_encode_map n ++ rest) = some (n, rest) := by
  unfold mp_encode_map
  split
  · next h1 =>
    show mp_decode_map ((0x80 + n) :: rest) = some (n, rest)
    simp only [mp_decode_map]
    rw [if_pos ⟨by omega, by omega⟩,
      show 0x80 + n - 0x80 = n from by omega]
  split
  · next h1 h2 =>
    show mp_decode_map (0xde :: (natBE 2 n ++ rest)) = some (n, rest)
    simp only [mp_decode_map]
    norm_num
    exact readBE_natBE 2 n (by omega) rest
  · next h1 h2 =>
    show mp_decode_map (0xdf :: (natBE 4 n ++ rest)) = some (n, rest)
    simp only [mp_decode_map]
    norm_num
    exact readBE_natBE 4 n (by norm_num at h ⊢; omega) rest

/-- Decoding the canonical string encoding recovers the byte string. -/
theorem mp_decode_str_enc {s : List Nat} (h : s.length < 2 ^ 32)
    (rest : List Nat) :
    mp_decode_str (mp_encode_str s ++ rest) = some (s, rest) := by
  unfold mp_encode_str
  split
  · next h1 =>
    show mp_decode_str ((0xa0 + s.length) :: (s ++ rest)) = some (s, rest)
    simp only [mp_decode_str]
    rw [if_pos ⟨by omega, by omega⟩,
      show 0xa0 + s.length - 0xa0 = s.length from by omega]
    exact takeExact_append s rest
  split
  · next h1 h2 =>
    show mp_decode_str (0xd9 :: (natBE 1 s.length ++ (s ++ rest))) =
      some (s, rest)
    simp only [mp_decode_str]
    norm_num
    rw [readBE_natBE 1 s.length (by omega) (s ++ rest)]
    exact takeExact_append s rest
  split
  · next h1 h2 h3 =>
    show mp_decode_str (0xda :: (natBE 2 s.length ++ (s ++ rest))) =
      some (s, rest)
    simp only [mp_decode_str]
    norm_num
    rw [readBE_natBE 2 s.length (by omega) (s ++ rest)]
    exact takeExact_append s rest
  · next h1 h2 h3 =>
    show mp_decode_str (0xdb :: (natBE 4 s.length ++ (s ++ rest))) =
      some (s, rest)
    simp only [mp_decode_str]
    norm_num
    rw [readBE_natBE 4 s.length (by norm_num at h ⊢; omega) (s ++ rest)]
    exact takeExact_append s rest

theorem mp_encode_array_len_pos (n : Nat) :
    1 ≤ (mp_encode_array n).length := by
  unfold mp_encode_array
  split
  · simp
  split <;> simp [natBE_length]

theorem mp_encode_map_len_pos (n : Nat) :
    1 ≤ (mp_encode_map n).length := by
  unfold mp_encode_map
  split
  · simp
  split <;> simp [natBE_length]

theorem mp_encode_uint_len_pos (n : Nat) :
    1 ≤ (mp_encode_uint n).length := by
  unfold mp_encode_uint
  split
  · simp
  split
  · simp [natBE_length]
  split
  · simp [natBE_length]
  split <;> simp [natBE_length]

theorem mp_encode_str_len_pos (s : List Nat) :
    1 ≤ (mp_encode_str s).length := by
  unfold mp_encode_str
  split
  · simp
  split
  · simp [natBE_length]
  split <;> simp [natBE_length]

/-- Every value spans at least one object. -/
theorem MPVal.nodes_pos (v : MPVal) : 1 ≤ MPVal.nodes v := by
  cases v <;> simp only [MPVal.nodes] <;> omega

mutual

/-- The object count never exceeds the encoded length (each object header
is at least one byte). -/
theorem MPVal.nodes_le_enc (v : MPVal) :
    MPVal.nodes v ≤ (MPVal.enc v).length := by
  cases v with
  | nil => simp [MPVal.nodes, MPVal.enc, mp_encode_nil]
  | bool b => cases b <;> simp [MPVal.nodes, MPVal.enc, mp_encode_bool]
  | uint n =>
    simp only [MPVal.nodes, MPVal.enc]
    exact mp_encode_uint_len_pos n
  | str s =>
    simp only [MPVal.nodes, MPVal.enc]
    exact mp_encode_str_len_pos s
  | arr xs =>
    simp only [MPVal.nodes, MPVal.enc, List.length_append]
    have h1 := MPVal.nodesList_le_enc xs
    have h2 := mp_encode_array_len_pos xs.length
    omega
  | map kvs =>
    simp only [MPVal.nodes, MPVal.enc, List.length_append]
    have h1 := MPVal.nodesPairs_le_enc kvs
    have h2 := mp_encode_map_len_pos kvs.length
    omega

theorem MPVal.nodesList_le_enc (vs : List MPVal) :
    MPVal.nodesList vs ≤ (MPVal.encList vs).length := by
  cases vs with
  | nil => simp [MPVal.nodesList, MPVal.encList]
  | cons v vs =>
    simp only [MPVal.nodesList, MPVal.encList, List.length_append]
    have h1 := MPVal.nodes_le_enc v
    have h2 := MPVal.nodesList_le_enc vs
    omega

theorem MPVal.nodesPairs_le_enc (kvs : List (MPVal × MPVal)) :
    MPVal.nodesPairs kvs ≤ (MPVal.encPairs kvs).length := by
  cases kvs with
  | nil => simp [MPVal.nodesPairs, MPVal.encPairs]
  | cons kv kvs =>
    obtain ⟨k, v⟩ := kv
    simp only [MPVal.nodesPairs, MPVal.encPairs, List.length_append]
    have h1 := MPVal.nodes_le_enc k
    have h2 := MPVal.nodes_le_enc v
    have h3 := MPVal.nodesPairs_le_enc kvs
    omega

end

theorem MPVal.encList_append (a b : List MPVal) :
    MPVal.encList (a ++ b) = MPVal.encList a ++ MPVal.encList b := by
  induction a with
  | nil => simp [MPVal.encList]
  | cons v vs ih => simp [MPVal.encList, ih]

theorem MPVal.nodesList_append (a b : List MPVal) :
    MPVal.nodesList (a ++ b) = MPVal.nodesList a + MPVal.nodesList b := by
  induction a with
  | nil => simp [MPVal.nodesList]
  | cons v vs ih =>
    simp only [List.cons_append, MPVal.nodesList, List.append_eq, ih]
    omega

theorem MPVal.goodList_append (a b : List MPVal) :
    MPVal.goodList (a ++ b) = (MPVal.goodList a && MPVal.goodList b) := by
  induction a with
  | nil => simp [MPVal.goodList]
  | cons v vs ih =>
    simp only [List.cons_append, MPVal.goodList, List.append_eq, ih,
      Bool.and_assoc]

mutual

/-- Skipping a well-formed encoded value consumes exactly its bytes and
decrements the pending-object count by one; the fuel spent is the value's
object count. -/
theorem mp_skip_enc (v : MPVal) (hg : MPVal.good v = true) (f k : Nat)
    (rest : List Nat) :
    mp_skip (f + MPVal.nodes v) (k + 1) (MPVal.enc v ++ rest) =
      mp_skip f k rest := by
  cases v with
  | nil =>
    show mp_skip (f + 1) (k + 1) (0xc0 :: rest) = mp_skip f k rest
    rw [mp_skip_cons f k 0xc0 rest
      (mp_skip_head_imm (show headClass 0xc0 = HeadClass.imm 0 from rfl)
        rest)]
    rfl
  | bool b =>
    cases b with
    | false =>
      show mp_skip (f + 1) (k + 1) (0xc2 :: rest) = mp_skip f k rest
      rw [mp_skip_cons f k 0xc2 rest
        (mp_skip_head_imm (show headClass 0xc2 = HeadClass.imm 0 from rfl)
          rest)]
      rfl
    | true =>
      show mp_skip (f + 1) (k + 1) (0xc3 :: rest) = mp_skip f k rest
      rw [mp_skip_cons f k 0xc3 rest
        (mp_skip_head_imm (show headClass 0xc3 = HeadClass.imm 0 from rfl)
          rest)]
      rfl
  | uint n =>
    simp only [MPVal.nodes, MPVal.enc]
    unfold mp_encode_uint
    split
    · next h1 =>
      show mp_skip (f + 1) (k + 1) (n :: rest) = mp_skip f k rest
      rw [mp_skip_cons f k n rest
        (mp_skip_head_imm (headClass_fixuint h1) rest)]
      rfl
    split
    · show mp_skip (f + 1) (k + 1) (0xcc :: (natBE 1 n ++ rest)) =
        mp_skip f k rest
      rw [mp_skip_cons f k 0xcc _
        (mp_skip_head_payload
          (show headClass 0xcc = HeadClass.payload 1 from rfl)
          (natBE 1 n) rest (natBE_length 1 n))]
      rfl
    split
    · show mp_skip (f + 1) (k + 1) (0xcd :: (natBE 2 n ++ rest)) =
        mp_skip f k rest
      rw [mp_skip_cons f k 0xcd _
        (mp_skip_head_payload
          (show headClass 0xcd = HeadClass.payload 2 from rfl)
          (natBE 2 n) rest (natBE_length 2 n))]
      rfl
    split
    · show mp_skip (f + 1) (k + 1) (0xce :: (natBE 4 n ++ rest)) =
        mp_skip f k rest
      rw [mp_skip_cons f k 0xce _
        (mp_skip_head_payload
          (show headClass 0xce = HeadClass.payload 4 from rfl)
          (natBE 4 n) rest (natBE_length 4 n))]
      rfl
    · show mp_skip (f + 1) (k + 1) (0xcf :: (natBE 8 n ++ rest)) =
        mp_skip f k rest
      rw [mp_skip_cons f k 0xcf _
        (mp_skip_head_payload
          (show headClass 0xcf = HeadClass.payload 8 from rfl)
          (natBE 8 n) rest (natBE_length 8 n))]
      rfl
  | str s =>
    simp only [MPVal.good] at hg
    have hlen : s.length < 2 ^ 32 := of_decide_eq_true hg
    simp only [MPVal.nodes, MPVal.enc]
    unfold mp_encode_str
    split
    · next h1 =>
      show mp_skip (f + 1) (k + 1) ((0xa0 + s.length) :: (s ++ rest)) =
        mp_skip f k rest
      rw [mp_skip_cons f k _ _ (mp_skip_head_payload
        (headClass_fixstr (by omega) (by omega)) s rest (by omega))]
      rfl
    split
    · next h1 h2 =>
      show mp_skip (f + 1) (k + 1)
          (0xd9 :: ((natBE 1 s.length ++ s) ++ rest)) = mp_skip f k rest
      rw [List.append_assoc, mp_skip_cons f k 0xd9 _
        (mp_skip_head_lenPayload
          (show headClass 0xd9 = HeadClass.lenPayload 1 from rfl)
          s rest (by omega))]
      rfl
    split
    · next h1 h2 h3 =>
      show mp_skip (f + 1) (k + 1)
          (0xda :: ((natBE 2 s.length ++ s) ++ rest)) = mp_skip f k rest
      rw [List.append_assoc, mp_skip_cons f k 0xda _
        (mp_skip_head_lenPayload
          (show headClass 0xda = HeadClass.lenPayload 2 from rfl)
          s rest (by omega))]
      rfl
    · next h1 h2 h3 =>
      show mp_skip (f + 1) (k + 1)
          (0xdb :: ((natBE 4 s.length ++ s) ++ rest)) = mp_skip f k rest
      rw [List.append_assoc, mp_skip_cons f k 0xdb _
        (mp_skip_head_lenPayload
          (show headClass 0xdb = HeadClass.lenPayload 4 from rfl)
          s rest (by norm_num at hlen ⊢; omega))]
      rfl
  | arr xs =>
    simp only [MPVal.good, Bool.and_eq_true] at hg
    obtain ⟨hlt, hlist⟩ := hg
    have hlen : xs.length < 2 ^ 32 := of_decide_eq_true hlt
    simp only [MPVal.nodes, MPVal.enc]
    rw [List.append_assoc]
    unfold mp_encode_array
    split
    · next h1 =>
      show mp_skip (f + MPVal.nodesList xs + 1) (k + 1)
          ((0x90 + xs.length) :: (MPVal.encList xs ++ rest)) =
        mp_skip f k rest
      rw [mp_skip_cons (f + MPVal.nodesList xs) k _ _
        (mp_skip_head_imm (headClass_fixarr (by omega) (by omega)) _),
        show 0x90 + xs.length - 0x90 = xs.length from by omega]
      exact mp_skip_encList xs hlist f k rest
    split
    · next h1 h2 =>
      show mp_skip (f + MPVal.nodesList xs + 1) (k + 1)
          (0xdc :: (natBE 2 xs.length ++ (MPVal.encList xs ++ rest))) =
        mp_skip f k rest
      rw [mp_skip_cons (f + MPVal.nodesList xs) k 0xdc _
        (mp_skip_head_count
          (show headClass 0xdc = HeadClass.count 2 1 from rfl)
          xs.length (by omega) _), one_mul]
      exact mp_skip_encList xs hlist f k rest
    · next h1 h2 =>
      show mp_skip (f + MPVal.nodesList xs + 1) (k + 1)
          (0xdd :: (natBE 4 xs.length ++ (MPVal.encList xs ++ rest))) =
        mp_skip f k rest
      rw [mp_skip_cons (f + MPVal.nodesList xs) k 0xdd _
        (mp_skip_head_count
          (show headClass 0xdd = HeadClass.count 4 1 from rfl)
          xs.length (by norm_num at hlen ⊢; omega) _), one_mul]
      exact mp_skip_encList xs hlist f k rest
  | map kvs =>
    simp only [MPVal.good, Bool.and_eq_true] at hg
    obtain ⟨hlt, hpairs⟩ := hg
    have hlen : kvs.length < 2 ^ 32 := of_decide_eq_true hlt
    simp only [MPVal.nodes, MPVal.enc]
    rw [List.append_assoc]
    unfold mp_encode_map
    split
    · next h1 =>
      show mp_skip (f + MPVal.nodesPairs kvs + 1) (k + 1)
          ((0x80 + kvs.length) :: (MPVal.encPairs kvs ++ rest)) =
        mp_skip f k rest
      rw [mp_skip_cons (f + MPVal.nodesPairs kvs) k _ _
        (mp_skip_head_imm (headClass_fixmap (by omega) (by omega)) _),
        show 0x80 + kvs.length - 0x80 = kvs.length from by omega]
      exact mp_skip_encPairs kvs hpairs f k rest
    split
    · next h1 h2 =>
      show mp_skip (f + MPVal.nodesPairs kvs + 1) (k + 1)
          (0xde :: (natBE 2 kvs.length ++ (MPVal.encPairs kvs ++ rest))) =
        mp_skip f k rest
      rw [mp_skip_cons (f + MPVal.nodesPairs kvs) k 0xde _
        (mp_skip_head_count
          (show headClass 0xde = HeadClass.count 2 2 from rfl)
          kvs.length (by omega) _)]
      exact mp_skip_encPairs kvs hpairs f k rest
    · next h1 h2 =>
      show mp_skip (f + MPVal.nodesPairs kvs + 1) (k + 1)
          (0xdf :: (natBE 4 kvs.length ++ (MPVal.encPairs kvs ++ rest))) =
        mp_skip f k rest
      rw [mp_skip_cons (f + MPVal.nodesPairs kvs) k 0xdf _
        (mp_skip_head_count
          (show headClass 0xdf = HeadClass.count 4 2 from rfl)
          kvs.length (by norm_num at hlen ⊢; omega) _)]
      exact mp_skip_encPairs kvs hpairs f k rest

/-- Skipping a well-formed encoded element list consumes exactly its
bytes, one pending object per element. -/
theorem mp_skip_encList (vs : List MPVal) (hg : MPVal.goodList vs = true)
    (f k : Nat) (rest : List Nat) :
    mp_skip (f + MPVal.nodesList vs) (k + vs.length)
      (MPVal.encList vs ++ rest) = mp_skip f k rest := by
  cases vs with
  | nil => simp [MPVal.nodesList, MPVal.encList]
  | cons v vs =>
    simp only [MPVal.goodList, Bool.and_eq_true] at hg
    obtain ⟨hv, hvs⟩ := hg
    simp only [MPVal.nodesList, MPVal.encList, List.length_cons,
      List.append_assoc]
    rw [show f + (MPVal.nodesList vs + MPVal.nodes v) =
          f + MPVal.nodesList vs + MPVal.nodes v from by omega,
        show k + (vs.length + 1) = k + vs.length + 1 from by omega,
        mp_skip_enc v hv (f + MPVal.nodesList vs) (k + vs.length)
          (MPVal.encList vs ++ rest)]
    exact mp_skip_encList vs hvs f k rest

/-- Skipping a well-formed encoded pair list consumes exactly its bytes,
two pending objects per pair. -/
theorem mp_skip_encPairs (kvs : List (MPVal × MPVal))
    (hg : MPVal.goodPairs kvs = true) (f k : Nat) (rest : List Nat) :
    mp_skip (f + MPVal.nodesPairs kvs) (k + 2 * kvs.length)
      (MPVal.encPairs kvs ++ rest) = mp_skip f k rest := by
  cases kvs with
  | nil => simp [MPVal.nodesPairs, MPVal.encPairs]
  | cons kv kvs =>
    obtain ⟨kk, v⟩ := kv
    simp only [MPVal.goodPairs, Bool.and_eq_true] at hg
    obtain ⟨⟨hk, hv⟩, hkvs⟩ := hg
    cases kk with
    | str s =>
      have hks : MPVal.good (.str s) = true := by
        simp only [MPVal.good]
        exact hk
      simp only [MPVal.nodesPairs, MPVal.encPairs, List.length_cons,
        List.append_assoc, MPVal.nodes]
      rw [show f + (MPVal.nodesPairs kvs + MPVal.nodes v + 1) =
            f + MPVal.nodesPairs kvs + MPVal.nodes v +
              MPVal.nodes (.str s) from by
          simp only [MPVal.nodes]; omega,
        show k + 2 * (kvs.length + 1) = k + 2 * kvs.length + 1 + 1 from by
          omega,
        mp_skip_enc (.str s) hks (f + MPVal.nodesPairs kvs + MPVal.nodes v)
          (k + 2 * kvs.length + 1)
          (MPVal.enc v ++ (MPVal.encPairs kvs ++ rest)),
        mp_skip_enc v hv (f + MPVal.nodesPairs kvs) (k + 2 * kvs.length)
          (MPVal.encPairs kvs ++ rest)]
      exact mp_skip_encPairs kvs hkvs f k rest
    | nil => cases hk
    | bool b => cases hk
    | uint n => cases hk
    | arr xs => cases hk
    | map m => cases hk

end

theorem mp_skip_zero (f : Nat) (bs : List Nat) : mp_skip f 0 bs = some bs := by
  cases f <;> rfl

/-- Skipping one encoded value with the standard `mp_next` fuel. -/
theorem mp_next_enc (v : MPVal) (hg : MPVal.good v = true)
    (rest : List Nat) : mp_next (MPVal.enc v ++ rest) = some rest := by
  unfold mp_next
  have hle := MPVal.nodes_le_enc v
  rw [show (MPVal.enc v ++ rest).length + 1 =
        ((MPVal.enc v).length + rest.length + 1 - MPVal.nodes v) +
          MPVal.nodes v from by
      simp only [List.length_append]; omega,
    show (1 : Nat) = 0 + 1 from rfl,
    mp_skip_enc v hg ((MPVal.enc v).length + rest.length + 1 -
      MPVal.nodes v) 0 rest]
  exact mp_skip_zero _ rest

/-! ### Surrogate traversal: loop-step and field-map lemmas -/

theorem applyWrites_append (m : List Nat) (w1 w2 : List (Nat × Nat)) :
    applyWrites m (w1 ++ w2) = applyWrites (applyWrites m w1) w2 := by
  simp [applyWrites, List.foldl_append]

theorem applyWrites_length (m : List Nat) (ws : List (Nat × Nat)) :
    (applyWrites m ws).length = m.length := by
  induction ws generalizing m with
  | nil => rfl
  | cons w ws ih =>
    simp only [applyWrites, List.foldl_cons] at ih ⊢
    rw [ih, List.length_set]

theorem applyWrites_untouched (m : List Nat) (ws : List (Nat × Nat))
    (i : Nat) (h : ∀ p ∈ ws, p.1 ≠ i) :
    (applyWrites m ws)[i]? = m[i]? := by
  induction ws generalizing m with
  | nil => rfl
  | cons w ws ih =>
    simp only [applyWrites, List.foldl_cons] at ih ⊢
    rw [ih _ fun p hp => h p (List.mem_cons_of_mem w hp),
      List.getElem?_set_ne (h w (List.mem_cons_self w ws))]

theorem applyWrites_written (m : List Nat) (ws : List (Nat × Nat))
    (i : Nat) (hi : i < m.length) (hmem : ∃ p ∈ ws, p.1 = i)
    (hpos : ∀ p ∈ ws, 1 ≤ p.2) :
    ∃ x, (applyWrites m ws)[i]? = some x ∧ 1 ≤ x := by
  induction ws generalizing m with
  | nil => obtain ⟨p, hp, -⟩ := hmem; cases hp
  | cons w ws ih =>
    simp only [applyWrites, List.foldl_cons] at ih ⊢
    by_cases hw : ∃ p ∈ ws, p.1 = i
    · exact ih (m.set w.1 w.2) (by simpa using hi) hw
        fun p hp => hpos p (List.mem_cons_of_mem w hp)
    · have hwi : w.1 = i := by
        obtain ⟨p, hp, hpi⟩ := hmem
        rcases List.mem_cons.mp hp with rfl | hp'
        · exact hpi
        · exact absurd ⟨p, hp', hpi⟩ hw
      refine ⟨w.2, ?_, hpos w (List.mem_cons_self w ws)⟩
      have hunt : ∀ p ∈ ws, p.1 ≠ i := by
        intro p hp hpi
        exact hw ⟨p, hp, hpi⟩
      calc (applyWrites (m.set w.1 w.2) ws)[i]? =
            (m.set w.1 w.2)[i]? := applyWrites_untouched _ ws i hunt
        _ = some w.2 := by rw [hwi]; exact List.getElem?_set_self hi

/-- Loop iteration on an exhausted frame: pop. -/
theorem surrogate_loop_pop (format : TupleFormat) (f : Nat)
    (src out fmap : List Nat) (knd : MpType) (cnt i : Nat)
    (ch : List (JsonToken × TupleFieldTree))
    (stRest : List (MpFrame × List (JsonToken × TupleFieldTree)))
    (h : cnt ≤ i) :
    surrogate_loop format (f + 1) src out fmap
        ((⟨knd, cnt, i⟩, ch) :: stRest) =
      surrogate_loop format f src out fmap stRest := by
  simp only [surrogate_loop]
  rw [if_pos h]

/-- Loop iteration on an active array frame: positional step. -/
theorem surrogate_loop_arr_step (format : TupleFormat) (f : Nat)
    (src out fmap : List Nat) (cnt i : Nat)
    (ch : List (JsonToken × TupleFieldTree))
    (stRest : List (MpFrame × List (JsonToken × TupleFieldTree)))
    (h : i < cnt) :
    surrogate_loop format (f + 1) src out fmap
        ((⟨.arr, cnt, i⟩, ch) :: stRest) =
      surrogate_step format f (.num i) ch src out fmap
        ((⟨.arr, cnt, i + 1⟩, ch) :: stRest) := by
  simp only [surrogate_loop]
  rw [if_neg (by omega)]

/-- Loop iteration on an active map frame whose next key is an encoded
string: decode the key, copy it to the output, step by the key token. -/
theorem surrogate_loop_map_step (format : TupleFormat) (f : Nat)
    (src0 src1 out fmap : List Nat) (b : Nat) (tl0 s : List Nat)
    (cnt i : Nat) (ch : List (JsonToken × TupleFieldTree))
    (stRest : List (MpFrame × List (JsonToken × TupleFieldTree)))
    (h : i < cnt) (hb : src0 = b :: tl0)
    (htype : mp_typeof b = some .str)
    (hdec : mp_decode_str src0 = some (s, src1)) :
    surrogate_loop format (f + 1) src0 out fmap
        ((⟨.map, cnt, i⟩, ch) :: stRest) =
      surrogate_step format f (.str s) ch src1 (out ++ mp_encode_str s)
        fmap ((⟨.map, cnt, i + 1⟩, ch) :: stRest) := by
  subst hb
  simp only [surrogate_loop]
  rw [if_neg (by omega)]
  rw [if_neg (by simp [htype]), hdec]

theorem surrogateSpecStep_none {ch : List (JsonToken × TupleFieldTree)}
    {tok : JsonToken} (h : json_tree_lookup ch tok = none)
    (avail base : Nat) (v : MPVal) :
    surrogateSpecStep ch avail base tok v = (mp_encode_nil, [], 0) := by
  simp [surrogateSpecStep, h]

theorem surrogateSpecStep_nonkey {ch : List (JsonToken × TupleFieldTree)}
    {tok : JsonToken} {fld : TupleFieldTree}
    (h : json_tree_lookup ch tok = some fld)
    (hkp : TupleFieldTree.is_key_part fld = false)
    (avail base : Nat) (v : MPVal) :
    surrogateSpecStep ch avail base tok v = (mp_encode_nil, [], 0) := by
  simp [surrogateSpecStep, h, hkp]

theorem surrogateSpecStep_key {ch : List (JsonToken × TupleFieldTree)}
    {tok : JsonToken} {fld : TupleFieldTree}
    (h : json_tree_lookup ch tok = some fld)
    (hkp : TupleFieldTree.is_key_part fld = true)
    (avail base : Nat) (v : MPVal) :
    surrogateSpecStep ch avail base tok v =
      ((surrogateSpecVal fld avail base v).1,
       (match TupleFieldTree.offset_slot fld with
        | some slot => [(slot, base)]
        | none => []) ++ (surrogateSpecVal fld avail base v).2.1,
       (surrogateSpecVal fld avail base v).2.2) := by
  simp [surrogateSpecStep, h, hkp]

theorem surrogateSpecVal_nil (fld : TupleFieldTree) (avail base : Nat) :
    surrogateSpecVal fld avail base .nil = (MPVal.enc .nil, [], 0) := by
  simp [surrogateSpecVal]

theorem surrogateSpecVal_bool (fld : TupleFieldTree) (avail base : Nat)
    (b : Bool) :
    surrogateSpecVal fld avail base (.bool b) =
      (MPVal.enc (.bool b), [], 0) := by
  simp [surrogateSpecVal]

theorem surrogateSpecVal_uint (fld : TupleFieldTree) (avail base : Nat)
    (n : Nat) :
    surrogateSpecVal fld avail base (.uint n) =
      (MPVal.enc (.uint n), [], 0) := by
  simp [surrogateSpecVal]

theorem surrogateSpecVal_str (fld : TupleFieldTree) (avail base : Nat)
    (s : List Nat) :
    surrogateSpecVal fld avail base (.str s) =
      (MPVal.enc (.str s), [], 0) := by
  simp [surrogateSpecVal]

theorem surrogateSpecVal_arr_zero (fld : TupleFieldTree) {avail : Nat}
    (h : avail = 0) (base : Nat) (xs : List MPVal) :
    surrogateSpecVal fld avail base (.arr xs) =
      (MPVal.enc (.arr xs), [], 0) := by
  subst h
  simp [surrogateSpecVal]

theorem surrogateSpecVal_arr_succ (fld : TupleFieldTree) {avail a : Nat}
    (h : avail = a + 1) (base : Nat) (xs : List MPVal) :
    surrogateSpecVal fld avail base (.arr xs) =
      (mp_encode_array xs.length ++
        (surrogateSpecElems (TupleFieldTree.children fld) a
          (base + (mp_encode_array xs.length).length) 0 xs).1,
       (surrogateSpecElems (TupleFieldTree.children fld) a
          (base + (mp_encode_array xs.length).length) 0 xs).2.1,
       (surrogateSpecElems (TupleFieldTree.children fld) a
          (base + (mp_encode_array xs.length).length) 0 xs).2.2 + 1) := by
  subst h
  simp [surrogateSpecVal]

theorem surrogateSpecVal_map_zero (fld : TupleFieldTree) {avail : Nat}
    (h : avail = 0) (base : Nat) (kvs : List (MPVal × MPVal)) :
    surrogateSpecVal fld avail base (.map kvs) =
      (MPVal.enc (.map kvs), [], 0) := by
  subst h
  simp [surrogateSpecVal]

theorem surrogateSpecVal_map_succ (fld : TupleFieldTree) {avail a : Nat}
    (h : avail = a + 1) (base : Nat) (kvs : List (MPVal × MPVal)) :
    surrogateSpecVal fld avail base (.map kvs) =
      (mp_encode_map kvs.length ++
        (surrogateSpecPairs (TupleFieldTree.children fld) a
          (base + (mp_encode_map kvs.length).length) kvs).1,
       (surrogateSpecPairs (TupleFieldTree.children fld) a
          (base + (mp_encode_map kvs.length).length) kvs).2.1,
       (surrogateSpecPairs (TupleFieldTree.children fld) a
          (base + (mp_encode_map kvs.length).length) kvs).2.2 + 1) := by
  subst h
  simp [surrogateSpecVal]

/-- Cutting the encoded value back out of the source by lengths. -/
theorem enc_take (v : MPVal) (srcRest : List Nat) :
    (MPVal.enc v ++ srcRest).take
      ((MPVal.enc v ++ srcRest).length - srcRest.length) = MPVal.enc v := by
  rw [show (MPVal.enc v ++ srcRest).length - srcRest.length =
      (MPVal.enc v).length from by simp [List.length_append]]
  exact ((takeExact_eq_some (takeExact_append (MPVal.enc v) srcRest)).1).symm

/-- Simulation of one addressed element in the verbatim-copy regime: the
field is matched and indexed, and either the value is not a container or
the frame stack is full, so the bytes are copied unchanged and only the
slot write happens. -/
theorem surrogate_sim_verbatim (format : TupleFormat) (v : MPVal)
    (hg : MPVal.good v = true) (ch : List (JsonToken × TupleFieldTree))
    (tok : JsonToken) (f : Nat) (srcRest out fmap : List Nat)
    (stack : List (MpFrame × List (JsonToken × TupleFieldTree)))
    (fld : TupleFieldTree) (hlk : json_tree_lookup ch tok = some fld)
    (hkp : TupleFieldTree.is_key_part fld = true)
    (hnc : ¬ ((MPVal.tag v = .arr ∨ MPVal.tag v = .map) ∧
      stack.length < format.fields_depth))
    (hval : surrogateSpecVal fld (format.fields_depth - stack.length)
      out.length v = (MPVal.enc v, [], 0)) :
    surrogate_step format
        (f + (surrogateSpecStep ch (format.fields_depth - stack.length)
          out.length tok v).2.2)
        tok ch (MPVal.enc v ++ srcRest) out fmap stack =
      surrogate_loop format f srcRest
        (out ++ (surrogateSpecStep ch (format.fields_depth - stack.length)
          out.length tok v).1)
        (applyWrites fmap (surrogateSpecStep ch
          (format.fields_depth - stack.length) out.length tok v).2.1)
        stack := by
  obtain ⟨b, tl, henc, htype⟩ := MPVal.enc_head v
  have hsrc : MPVal.enc v ++ srcRest = b :: (tl ++ srcRest) := by
    rw [henc]
    rfl
  simp only [surrogateSpecStep_key hlk hkp, hval, List.append_nil]
  simp only [surrogate_step, hlk]
  rw [if_neg (by simp [hkp])]
  simp only [hsrc, htype]
  rw [if_neg hnc]
  rw [← hsrc, mp_next_enc v hg srcRest]
  simp only [enc_take v srcRest]
  cases hos : TupleFieldTree.offset_slot fld <;> simp only [hos] <;> rfl

mutual

/-- Simulation: processing one addressed element of the source equals the
spec-side description — the emitted bytes, slot writes and loop iterations
of `surrogateSpecStep`. -/
theorem surrogate_sim_step (format : TupleFormat) (v : MPVal)
    (hg : MPVal.good v = true) (ch : List (JsonToken × TupleFieldTree))
    (tok : JsonToken) (f : Nat) (srcRest out fmap : List Nat)
    (stack : List (MpFrame × List (JsonToken × TupleFieldTree))) :
    surrogate_step format
        (f + (surrogateSpecStep ch (format.fields_depth - stack.length)
          out.length tok v).2.2)
        tok ch (MPVal.enc v ++ srcRest) out fmap stack =
      surrogate_loop format f srcRest
        (out ++ (surrogateSpecStep ch (format.fields_depth - stack.length)
          out.length tok v).1)
        (applyWrites fmap (surrogateSpecStep ch
          (format.fields_depth - stack.length) out.length tok v).2.1)
        stack := by
  cases hlk : json_tree_lookup ch tok with
  | none =>
    simp only [surrogateSpecStep_none hlk]
    simp only [surrogate_step, hlk]
    rw [mp_next_enc v hg srcRest]
    rfl
  | some fld =>
    cases hkp : TupleFieldTree.is_key_part fld with
    | false =>
      simp only [surrogateSpecStep_nonkey hlk hkp]
      simp only [surrogate_step, hlk]
      rw [if_pos (by simp [hkp])]
      rw [mp_next_enc v hg srcRest]
      rfl
    | true =>
      cases v with
      | nil =>
        exact surrogate_sim_verbatim format .nil hg ch tok f srcRest out
          fmap stack fld hlk hkp (by simp [MPVal.tag])
          (surrogateSpecVal_nil fld _ _)
      | bool b =>
        exact surrogate_sim_verbatim format (.bool b) hg ch tok f srcRest
          out fmap stack fld hlk hkp (by simp [MPVal.tag])
          (surrogateSpecVal_bool fld _ _ b)
      | uint n =>
        exact surrogate_sim_verbatim format (.uint n) hg ch tok f srcRest
          out fmap stack fld hlk hkp (by simp [MPVal.tag])
          (surrogateSpecVal_uint fld _ _ n)
      | str s =>
        exact surrogate_sim_verbatim format (.str s) hg ch tok f srcRest
          out fmap stack fld hlk hkp (by simp [MPVal.tag])
          (surrogateSpecVal_str fld _ _ s)
      | arr xs =>
        have hgl : xs.length < 2 ^ 32 ∧ MPVal.goodList xs = true := by
          simp only [MPVal.good, Bool.and_eq_true] at hg
          exact ⟨of_decide_eq_true hg.1, hg.2⟩
        by_cases hd : stack.length < format.fields_depth
        · have ha : format.fields_depth - stack.length =
              format.fields_depth - (stack.length + 1) + 1 := by omega
          obtain ⟨b, tl, henc, htype⟩ := MPVal.enc_head (.arr xs)
          have hsrc : MPVal.enc (.arr xs) ++ srcRest =
              b :: (tl ++ srcRest) := by
            rw [henc]
            rfl
          have hdec : mp_decode_array (b :: (tl ++ srcRest)) =
              some (xs.length, MPVal.encList xs ++ srcRest) := by
            rw [← hsrc, show MPVal.enc (.arr xs) ++ srcRest =
              mp_encode_array xs.length ++
                (MPVal.encList xs ++ srcRest) from by
                simp [MPVal.enc]]
            exact mp_decode_array_enc hgl.1 _
          simp only [surrogateSpecStep_key hlk hkp,
            surrogateSpecVal_arr_succ fld ha out.length xs]
          simp only [surrogate_step, hlk]
          rw [if_neg (by simp [hkp])]
          simp only [hsrc, htype, MPVal.tag]
          rw [if_pos ⟨Or.inl trivial, hd⟩, if_pos trivial]
          simp only [hdec]
          cases hos : TupleFieldTree.offset_slot fld with
          | none =>
            simp only [hos]
            have hmain := surrogate_sim_elems format xs hgl.2
              (TupleFieldTree.children fld) 0 xs.length (by omega) f
              srcRest (out ++ mp_encode_array xs.length) fmap stack
            simp only [List.length_append] at hmain
            rw [hmain, List.append_assoc]
            rfl
          | some slot =>
            simp only [hos]
            have hmain := surrogate_sim_elems format xs hgl.2
              (TupleFieldTree.children fld) 0 xs.length (by omega) f
              srcRest (out ++ mp_encode_array xs.length)
              (fmap.set slot out.length) stack
            simp only [List.length_append] at hmain
            rw [hmain, List.append_assoc]
            rfl
        · exact surrogate_sim_verbatim format (.arr xs) hg ch tok f srcRest
            out fmap stack fld hlk hkp (fun hcon => hd hcon.2)
            (surrogateSpecVal_arr_zero fld (by omega) out.length xs)
      | map kvs =>
        have hgl : kvs.length < 2 ^ 32 ∧ MPVal.goodPairs kvs = true := by
          simp only [MPVal.good, Bool.and_eq_true] at hg
          exact ⟨of_decide_eq_true hg.1, hg.2⟩
        by_cases hd : stack.length < format.fields_depth
        · have ha : format.fields_depth - stack.length =
              format.fields_depth - (stack.length + 1) + 1 := by omega
          obtain ⟨b, tl, henc, htype⟩ := MPVal.enc_head (.map kvs)
          have hsrc : MPVal.enc (.map kvs) ++ srcRest =
              b :: (tl ++ srcRest) := by
            rw [henc]
            rfl
          have hdec : mp_decode_map (b :: (tl ++ srcRest)) =
              some (kvs.length, MPVal.encPairs kvs ++ srcRest) := by
            rw [← hsrc, show MPVal.enc (.map kvs) ++ srcRest =
              mp_encode_map kvs.length ++
                (MPVal.encPairs kvs ++ srcRest) from by
                simp [MPVal.enc]]
            exact mp_decode_map_enc hgl.1 _
          simp only [surrogateSpecStep_key hlk hkp,
            surrogateSpecVal_map_succ fld ha out.length kvs]
          simp only [surrogate_step, hlk]
          rw [if_neg (by simp [hkp])]
          simp only [hsrc, htype, MPVal.tag]
          rw [if_pos ⟨Or.inr trivial, hd⟩,
            if_neg (by decide : ¬ (MpType.map = MpType.arr))]
          simp only [hdec]
          cases hos : TupleFieldTree.offset_slot fld with
          | none =>
            simp only [hos]
            have hmain := surrogate_sim_pairs format kvs hgl.2
              (TupleFieldTree.children fld) 0 kvs.length (by omega) f
              srcRest (out ++ mp_encode_map kvs.length) fmap stack
            simp only [List.length_append] at hmain
            rw [hmain, List.append_assoc]
            rfl
          | some slot =>
            simp only [hos]
            have hmain := surrogate_sim_pairs format kvs hgl.2
              (TupleFieldTree.children fld) 0 kvs.length (by omega) f
              srcRest (out ++ mp_encode_map kvs.length)
              (fmap.set slot out.length) stack
            simp only [List.length_append] at hmain
            rw [hmain, List.append_assoc]
            rfl
        · exact surrogate_sim_verbatim format (.map kvs) hg ch tok f srcRest
            out fmap stack fld hlk hkp (fun hcon => hd hcon.2)
            (surrogateSpecVal_map_zero fld (by omega) out.length kvs)

/-- Simulation: draining an active array frame over the encoded elements
equals the spec-side `surrogateSpecElems`, then pops the frame. -/
theorem surrogate_sim_elems (format : TupleFormat) (vs : List MPVal)
    (hg : MPVal.goodList vs = true)
    (ch : List (JsonToken × TupleFieldTree)) (i cnt : Nat)
    (hcnt : cnt = i + vs.length) (f : Nat) (srcRest out fmap : List Nat)
    (stRest : List (MpFrame × List (JsonToken × TupleFieldTree))) :
    surrogate_loop format
        (f + ((surrogateSpecElems ch
            (format.fields_depth - (stRest.length + 1)) out.length i
            vs).2.2 + 1))
        (MPVal.encList vs ++ srcRest) out fmap
        ((⟨.arr, cnt, i⟩, ch) :: stRest) =
      surrogate_loop format f srcRest
        (out ++ (surrogateSpecElems ch
          (format.fields_depth - (stRest.length + 1)) out.length i vs).1)
        (applyWrites fmap (surrogateSpecElems ch
          (format.fields_depth - (stRest.length + 1)) out.length i
          vs).2.1)
        stRest := by
  cases vs with
  | nil =>
    simp only [List.length_nil] at hcnt
    simp only [surrogateSpecElems, MPVal.encList, List.nil_append,
      List.append_nil]
    rw [show f + (0 + 1) = f + 1 from rfl,
      surrogate_loop_pop format f srcRest out fmap .arr cnt i ch stRest
        (by omega)]
    rfl
  | cons v vs =>
    rw [List.length_cons] at hcnt
    simp only [MPVal.goodList, Bool.and_eq_true] at hg
    obtain ⟨hv, hvs⟩ := hg
    rcases h1 : surrogateSpecStep ch
        (format.fields_depth - (stRest.length + 1)) out.length
        (JsonToken.num i) v with ⟨E1, W1, S1⟩
    rcases h2 : surrogateSpecElems ch
        (format.fields_depth - (stRest.length + 1))
        (out.length + E1.length) (i + 1) vs with ⟨E2, W2, S2⟩
    simp only [surrogateSpecElems, MPVal.encList, List.append_assoc, h1,
      h2]
    rw [show f + (S1 + 1 + S2 + 1) = f + (S1 + 1 + S2) + 1 from rfl,
      surrogate_loop_arr_step format (f + (S1 + 1 + S2)) _ out fmap cnt i
        ch stRest (by omega),
      show f + (S1 + 1 + S2) = f + (S2 + 1) + S1 from by omega]
    have hstep := surrogate_sim_step format v hv ch (JsonToken.num i)
      (f + (S2 + 1)) (MPVal.encList vs ++ srcRest) out fmap
      ((⟨.arr, cnt, i + 1⟩, ch) :: stRest)
    simp only [List.length_cons, h1] at hstep
    rw [hstep]
    have helems := surrogate_sim_elems format vs hvs ch (i + 1) cnt
      (by omega) f srcRest (out ++ E1) (applyWrites fmap W1) stRest
    simp only [List.length_append, h2] at helems
    rw [helems, List.append_assoc, applyWrites_append]

/-- Simulation: draining an active map frame over the encoded pairs
equals the spec-side `surrogateSpecPairs`, then pops the frame. -/
theorem surrogate_sim_pairs (format : TupleFormat)
    (kvs : List (MPVal × MPVal)) (hg : MPVal.goodPairs kvs = true)
    (ch : List (JsonToken × TupleFieldTree)) (i cnt : Nat)
    (hcnt : cnt = i + kvs.length) (f : Nat) (srcRest out fmap : List Nat)
    (stRest : List (MpFrame × List (JsonToken × TupleFieldTree))) :
    surrogate_loop format
        (f + ((surrogateSpecPairs ch
            (format.fields_depth - (stRest.length + 1)) out.length
            kvs).2.2 + 1))
        (MPVal.encPairs kvs ++ srcRest) out fmap
        ((⟨.map, cnt, i⟩, ch) :: stRest) =
      surrogate_loop format f srcRest
        (out ++ (surrogateSpecPairs ch
          (format.fields_depth - (stRest.length + 1)) out.length kvs).1)
        (applyWrites fmap (surrogateSpecPairs ch
          (format.fields_depth - (stRest.length + 1)) out.length
          kvs).2.1)
        stRest := by
  cases kvs with
  | nil =>
    simp only [List.length_nil] at hcnt
    simp only [surrogateSpecPairs, MPVal.encPairs, List.nil_append,
      List.append_nil]
    rw [show f + (0 + 1) = f + 1 from rfl,
      surrogate_loop_pop format f srcRest out fmap .map cnt i ch stRest
        (by omega)]
    rfl
  | cons kv kvs =>
    obtain ⟨kk, v⟩ := kv
    rw [List.length_cons] at hcnt
    simp only [MPVal.goodPairs, Bool.and_eq_true] at hg
    obtain ⟨⟨hk, hv⟩, hkvs⟩ := hg
    cases kk with
    | nil => cases hk
    | bool b => cases hk
    | uint n => cases hk
    | arr xs => cases hk
    | map m => cases hk
    | str s =>
      have hslen : s.length < 2 ^ 32 := of_decide_eq_true hk
      rcases h1 : surrogateSpecStep ch
          (format.fields_depth - (stRest.length + 1))
          (out.length + (mp_encode_str s).length) (JsonToken.str s) v
        with ⟨E1, W1, S1⟩
      rcases h2 : surrogateSpecPairs ch
          (format.fields_depth - (stRest.length + 1))
          (out.length + (mp_encode_str s).length + E1.length) kvs
        with ⟨E2, W2, S2⟩
      simp only [surrogateSpecPairs, MPVal.encPairs, MPVal.enc,
        List.append_assoc, h1, h2]
      obtain ⟨b, tl, henc, htype⟩ := MPVal.enc_head (.str s)
      simp only [MPVal.enc, MPVal.tag] at henc htype
      rw [show f + (S1 + 1 + S2 + 1) = f + (S1 + 1 + S2) + 1 from rfl,
        surrogate_loop_map_step format (f + (S1 + 1 + S2))
          (mp_encode_str s ++
            (MPVal.enc v ++ (MPVal.encPairs kvs ++ srcRest)))
          (MPVal.enc v ++ (MPVal.encPairs kvs ++ srcRest)) out fmap b
          (tl ++ (MPVal.enc v ++ (MPVal.encPairs kvs ++ srcRest))) s cnt i
          ch stRest (by omega) (by rw [henc]; rfl) htype
          (mp_decode_str_enc hslen
            (MPVal.enc v ++ (MPVal.encPairs kvs ++ srcRest))),
        show f + (S1 + 1 + S2) = f + (S2 + 1) + S1 from by omega]
      have hstep := surrogate_sim_step format v hv ch (JsonToken.str s)
        (f + (S2 + 1)) (MPVal.encPairs kvs ++ srcRest)
        (out ++ mp_encode_str s) fmap
        ((⟨.map, cnt, i + 1⟩, ch) :: stRest)
      simp only [List.length_cons, List.length_append, h1] at hstep
      rw [hstep]
      have hpairs := surrogate_sim_pairs format kvs hkvs ch (i + 1) cnt
        (by omega) f srcRest (out ++ mp_encode_str s ++ E1)
        (applyWrites fmap W1) stRest
      simp only [List.length_append, h2] at hpairs
      rw [hpairs]
      simp only [List.append_assoc, applyWrites_append]

end

mutual

/-- The traversal spends at most two loop iterations per source object. -/
theorem surrogateSpecVal_steps_le (fld : TupleFieldTree) (avail base : Nat)
    (v : MPVal) :
    (surrogateSpecVal fld avail base v).2.2 + 1 ≤ 2 * MPVal.nodes v := by
  cases v with
  | nil => simp [surrogateSpecVal_nil, MPVal.nodes]
  | bool b => simp [surrogateSpecVal_bool, MPVal.nodes]
  | uint n => simp [surrogateSpecVal_uint, MPVal.nodes]
  | str s => simp [surrogateSpecVal_str, MPVal.nodes]
  | arr xs =>
    cases avail with
    | zero =>
      simp only [surrogateSpecVal_arr_zero fld rfl, MPVal.nodes]
      have := MPVal.nodes_pos (.arr xs)
      simp only [MPVal.nodes] at this
      omega
    | succ a =>
      simp only [surrogateSpecVal_arr_succ fld rfl, MPVal.nodes]
      have h := surrogateSpecElems_steps_le (TupleFieldTree.children fld) a
        (base + (mp_encode_array xs.length).length) 0 xs
      omega
  | map kvs =>
    cases avail with
    | zero =>
      simp only [surrogateSpecVal_map_zero fld rfl, MPVal.nodes]
      omega
    | succ a =>
      simp only [surrogateSpecVal_map_succ fld rfl, MPVal.nodes]
      have h := surrogateSpecPairs_steps_le (TupleFieldTree.children fld) a
        (base + (mp_encode_map kvs.length).length) kvs
      omega

theorem surrogateSpecStep_steps_le (ch : List (JsonToken × TupleFieldTree))
    (avail base : Nat) (tok : JsonToken) (v : MPVal) :
    (surrogateSpecStep ch avail base tok v).2.2 + 1 ≤ 2 * MPVal.nodes v := by
  have hp := MPVal.nodes_pos v
  cases hlk : json_tree_lookup ch tok with
  | none =>
    simp only [surrogateSpecStep_none hlk]
    omega
  | some fld =>
    cases hkp : TupleFieldTree.is_key_part fld with
    | false =>
      simp only [surrogateSpecStep_nonkey hlk hkp]
      omega
    | true =>
      simp only [surrogateSpecStep_key hlk hkp]
      exact surrogateSpecVal_steps_le fld avail base v

theorem surrogateSpecElems_steps_le (ch : List (JsonToken × TupleFieldTree))
    (avail base i : Nat) (vs : List MPVal) :
    (surrogateSpecElems ch avail base i vs).2.2 ≤
      2 * MPVal.nodesList vs := by
  cases vs with
  | nil => simp [surrogateSpecElems, MPVal.nodesList]
  | cons v vs =>
    simp only [surrogateSpecElems, MPVal.nodesList]
    have h1 := surrogateSpecStep_steps_le ch avail base (.num i) v
    have h2 := surrogateSpecElems_steps_le ch avail
      (base + (surrogateSpecStep ch avail base (.num i) v).1.length) (i + 1)
      vs
    omega

theorem surrogateSpecPairs_steps_le (ch : List (JsonToken × TupleFieldTree))
    (avail base : Nat) (kvs : List (MPVal × MPVal)) :
    (surrogateSpecPairs ch avail base kvs).2.2 ≤
      2 * MPVal.nodesPairs kvs := by
  cases kvs with
  | nil => simp [surrogateSpecPairs, MPVal.nodesPairs]
  | cons kv kvs =>
    obtain ⟨kk, v⟩ := kv
    cases kk with
    | str s =>
      simp only [surrogateSpecPairs, MPVal.nodesPairs]
      have hks := MPVal.nodes_pos (.str s)
      have h1 := surrogateSpecStep_steps_le ch avail
        (base + (mp_encode_str s).length) (.str s) v
      have h2 := surrogateSpecPairs_steps_le ch avail
        (base + (mp_encode_str s).length +
          (surrogateSpecStep ch avail (base + (mp_encode_str s).length)
            (.str s) v).1.length) kvs
      omega
    | nil =>
      simp only [surrogateSpecPairs, MPVal.nodesPairs]
      have h2 := surrogateSpecPairs_steps_le ch avail base kvs
      have := MPVal.nodes_pos v
      omega
    | bool b =>
      simp only [surrogateSpecPairs, MPVal.nodesPairs]
      have h2 := surrogateSpecPairs_steps_le ch avail base kvs
      have := MPVal.nodes_pos v
      omega
    | uint n =>
      simp only [surrogateSpecPairs, MPVal.nodesPairs]
      have h2 := surrogateSpecPairs_steps_le ch avail base kvs
      have := MPVal.nodes_pos v
      omega
    | arr xs =>
      simp only [surrogateSpecPairs, MPVal.nodesPairs]
      have h2 := surrogateSpecPairs_steps_le ch avail base kvs
      have := MPVal.nodes_pos v
      omega
    | map m =>
      simp only [surrogateSpecPairs, MPVal.nodesPairs]
      have h2 := surrogateSpecPairs_steps_le ch avail base kvs
      have := MPVal.nodes_pos v
      omega

end

mutual

/-- Every recorded slot write points at or beyond the payload offset at
which the traversal was positioned. -/
theorem surrogateSpecVal_writes_ge (fld : TupleFieldTree)
    (avail base : Nat) (v : MPVal) :
    ∀ p ∈ (surrogateSpecVal fld avail base v).2.1, base ≤ p.2 := by
  cases v with
  | nil => simp [surrogateSpecVal_nil]
  | bool b => simp [surrogateSpecVal_bool]
  | uint n => simp [surrogateSpecVal_uint]
  | str s => simp [surrogateSpecVal_str]
  | arr xs =>
    cases avail with
    | zero => simp [surrogateSpecVal_arr_zero fld rfl]
    | succ a =>
      simp only [surrogateSpecVal_arr_succ fld rfl]
      intro p hp
      have := surrogateSpecElems_writes_ge (TupleFieldTree.children fld) a
        (base + (mp_encode_array xs.length).length) 0 xs p hp
      omega
  | map kvs =>
    cases avail with
    | zero => simp [surrogateSpecVal_map_zero fld rfl]
    | succ a =>
      simp only [surrogateSpecVal_map_succ fld rfl]
      intro p hp
      have := surrogateSpecPairs_writes_ge (TupleFieldTree.children fld) a
        (base + (mp_encode_map kvs.length).length) kvs p hp
      omega

theorem surrogateSpecStep_writes_ge (ch : List (JsonToken × TupleFieldTree))
    (avail base : Nat) (tok : JsonToken) (v : MPVal) :
    ∀ p ∈ (surrogateSpecStep ch avail base tok v).2.1, base ≤ p.2 := by
  cases hlk : json_tree_lookup ch tok with
  | none => simp [surrogateSpecStep_none hlk]
  | some fld =>
    cases hkp : TupleFieldTree.is_key_part fld with
    | false => simp [surrogateSpecStep_nonkey hlk hkp]
    | true =>
      simp only [surrogateSpecStep_key hlk hkp]
      intro p hp
      rcases List.mem_append.mp hp with hp1 | hp2
      · cases hos : TupleFieldTree.offset_slot fld with
        | none => rw [hos] at hp1; cases hp1
        | some slot =>
          rw [hos] at hp1
          rcases List.mem_singleton.mp hp1 with rfl
          exact le_refl base
      · exact surrogateSpecVal_writes_ge fld avail base v p hp2

theorem surrogateSpecElems_writes_ge (ch : List (JsonToken × TupleFieldTree))
    (avail base i : Nat) (vs : List MPVal) :
    ∀ p ∈ (surrogateSpecElems ch avail base i vs).2.1, base ≤ p.2 := by
  cases vs with
  | nil => simp [surrogateSpecElems]
  | cons v vs =>
    simp only [surrogateSpecElems]
    intro p hp
    rcases List.mem_append.mp hp with hp1 | hp2
    · exact surrogateSpecStep_writes_ge ch avail base (.num i) v p hp1
    · have := surrogateSpecElems_writes_ge ch avail
        (base + (surrogateSpecStep ch avail base (.num i) v).1.length)
        (i + 1) vs p hp2
      omega

theorem surrogateSpecPairs_writes_ge (ch : List (JsonToken × TupleFieldTree))
    (avail base : Nat) (kvs : List (MPVal × MPVal)) :
    ∀ p ∈ (surrogateSpecPairs ch avail base kvs).2.1, base ≤ p.2 := by
  cases kvs with
  | nil => simp [surrogateSpecPairs]
  | cons kv kvs =>
    obtain ⟨kk, v⟩ := kv
    cases kk with
    | str s =>
      simp only [surrogateSpecPairs]
      intro p hp
      rcases List.mem_append.mp hp with hp1 | hp2
      · have := surrogateSpecStep_writes_ge ch avail
          (base + (mp_encode_str s).length) (.str s) v p hp1
        omega
      · have := surrogateSpecPairs_writes_ge ch avail
          (base + (mp_encode_str s).length +
            (surrogateSpecStep ch avail (base + (mp_encode_str s).length)
              (.str s) v).1.length) kvs p hp2
        omega
    | nil =>
      simp only [surrogateSpecPairs]
      exact surrogateSpecPairs_writes_ge ch avail base kvs
    | bool b =>
      simp only [surrogateSpecPairs]
      exact surrogateSpecPairs_writes_ge ch avail base kvs
    | uint n =>
      simp only [surrogateSpecPairs]
      exact surrogateSpecPairs_writes_ge ch avail base kvs
    | arr xs =>
      simp only [surrogateSpecPairs]
      exact surrogateSpecPairs_writes_ge ch avail base kvs
    | map m =>
      simp only [surrogateSpecPairs]
      exact surrogateSpecPairs_writes_ge ch avail base kvs

end

/-- A top-level indexed field with an assigned slot is recorded: its slot
appears among the spec traversal's writes. -/
theorem surrogateSpecElems_mem_writes
    (ch : List (JsonToken × TupleFieldTree)) (avail : Nat)
    (vs : List MPVal) (j fldslot : Nat) (fld : TupleFieldTree) :
    ∀ (base i : Nat), i ≤ j → j < i + vs.length →
    json_tree_lookup ch (.num j) = some fld →
    TupleFieldTree.is_key_part fld = true →
    TupleFieldTree.offset_slot fld = some fldslot →
    ∃ off, (fldslot, off) ∈ (surrogateSpecElems ch avail base i vs).2.1 := by
  induction vs with
  | nil =>
    intro base i h1 h2
    simp only [List.length_nil] at h2
    omega
  | cons v vs ih =>
    intro base i h1 h2 hlk hkp hos
    simp only [surrogateSpecElems]
    by_cases hji : j = i
    · subst hji
      refine ⟨base, ?_⟩
      simp [surrogateSpecStep_key hlk hkp, hos]
    · have h2' : j < (i + 1) + vs.length := by
        simp only [List.length_cons] at h2
        omega
      obtain ⟨off, hoff⟩ := ih
        (base + (surrogateSpecStep ch avail base (.num i) v).1.length)
        (i + 1) (by omega) h2' hlk hkp hos
      exact ⟨off, List.mem_append.mpr (Or.inr hoff)⟩

/-- C4: for a well-formed source tuple of M top-level fields over a schema
with K = `index_field_count` ≤ M indexed fields, surrogate-delete synthesis
succeeds and produces a record of type DELETE whose payload is the array
header for min(M, K) fields followed by the spec traversal's emitted bytes,
whose field map applies exactly the traversal's recorded slot writes to an
all-zero map: every top-level indexed field present gets a non-zero offset,
slots never written stay zero, and every unmatched or non-indexed field is
emitted as a nil placeholder. -/
theorem C4_surrogate_delete (env : VyStmtEnv) (format : TupleFormat)
    (rows : List MPVal) (is_main : Bool) (r : Region)
    (hgood : MPVal.goodList rows = true) (hM : rows.length < 2 ^ 32)
    (hK : format.index_field_count ≤ rows.length)
    (hfit : sizeof_vy_stmt + field_map_size format +
      (mp_encode_array format.index_field_count ++
        (surrogateSpecElems format.fields (format.fields_depth - 1)
          (mp_encode_array format.index_field_count).length 0
          (rows.take format.index_field_count)).1).length ≤ env.max_tuple_size) :
    ∃ stmt,
      (vy_stmt_new_surrogate_delete_raw env format
          (MPVal.enc (.arr rows)) is_main r).stmt = some stmt ∧
      stmt.type = IPROTO_DELETE ∧
      stmt.data = mp_encode_array format.index_field_count ++
        (surrogateSpecElems format.fields (format.fields_depth - 1)
          (mp_encode_array format.index_field_count).length 0
          (rows.take format.index_field_count)).1 ∧
      mp_decode_array stmt.data =
        some (min rows.length format.index_field_count,
          (surrogateSpecElems format.fields (format.fields_depth - 1)
          (mp_encode_array format.index_field_count).length 0
          (rows.take format.index_field_count)).1) ∧
      stmt.field_map =
        applyWrites (List.replicate format.field_map_slots 0)
          (surrogateSpecElems format.fields (format.fields_depth - 1)
          (mp_encode_array format.index_field_count).length 0
          (rows.take format.index_field_count)).2.1 ∧
      (∀ slot, slot < format.field_map_slots →
        (∀ off, (slot, off) ∉
          (surrogateSpecElems format.fields (format.fields_depth - 1)
          (mp_encode_array format.index_field_count).length 0
          (rows.take format.index_field_count)).2.1) →
        stmt.field_map[slot]? = some 0) ∧
      (∀ j fld slot, j < format.index_field_count →
        json_tree_lookup format.fields (.num j) = some fld →
        TupleFieldTree.is_key_part fld = true →
        TupleFieldTree.offset_slot fld = some slot →
        slot < format.field_map_slots →
        ∃ x, stmt.field_map[slot]? = some x ∧ 1 ≤ x) ∧
      (∀ (ch : List (JsonToken × TupleFieldTree)) (tok : JsonToken)
        (v : MPVal) (avail base : Nat),
        (json_tree_lookup ch tok = none ∨
          ∃ fld, json_tree_lookup ch tok = some fld ∧
            TupleFieldTree.is_key_part fld = false) →
        (surrogateSpecStep ch avail base tok v).1 = mp_encode_nil) := by
  have hmin : min rows.length format.index_field_count =
      format.index_field_count := min_eq_right hK
  have hsplit := List.take_append_drop format.index_field_count rows
  have hgt : MPVal.goodList (rows.take format.index_field_count) = true := by
    have h := hgood
    rw [← hsplit, MPVal.goodList_append, Bool.and_eq_true] at h
    exact h.1
  have hnle : MPVal.nodesList (rows.take format.index_field_count) ≤
      MPVal.nodesList rows := by
    have h := MPVal.nodesList_append
      (rows.take format.index_field_count)
      (rows.drop format.index_field_count)
    rw [hsplit] at h
    omega
  have hS : (surrogateSpecElems format.fields (format.fields_depth - 1)
          (mp_encode_array format.index_field_count).length 0
          (rows.take format.index_field_count)).2.2 + 1 ≤
      2 * (MPVal.enc (.arr rows)).length + 2 := by
    have h1 := surrogateSpecElems_steps_le format.fields
      (format.fields_depth - 1)
      (mp_encode_array format.index_field_count).length 0
      (rows.take format.index_field_count)
    have h2 := MPVal.nodesList_le_enc rows
    have h3 : (MPVal.encList rows).length ≤
        (MPVal.enc (.arr rows)).length := by
      simp only [MPVal.enc, List.length_append]
      omega
    omega
  have hdecode : mp_decode_array (MPVal.enc (.arr rows)) =
      some (rows.length, MPVal.encList rows) := by
    rw [show MPVal.enc (.arr rows) =
      mp_encode_array rows.length ++ MPVal.encList rows from by
      simp [MPVal.enc]]
    exact mp_decode_array_enc hM _
  have hsim := surrogate_sim_elems format
    (rows.take format.index_field_count) hgt format.fields 0
    format.index_field_count (by rw [List.length_take]; omega)
    (2 * (MPVal.enc (.arr rows)).length + 2 -
      ((surrogateSpecElems format.fields (format.fields_depth - 1)
          (mp_encode_array format.index_field_count).length 0
          (rows.take format.index_field_count)).2.2 + 1))
    (MPVal.encList (rows.drop format.index_field_count))
    (mp_encode_array format.index_field_count)
    (List.replicate format.field_map_slots 0) []
  simp only [List.length_nil, Nat.zero_add] at hsim
  have hstmt : (vy_stmt_new_surrogate_delete_raw env format
      (MPVal.enc (.arr rows)) is_main r).stmt = some
      { refs := 1, format_id := format.id,
        bsize := (mp_encode_array format.index_field_count ++
          (surrogateSpecElems format.fields (format.fields_depth - 1)
          (mp_encode_array format.index_field_count).length 0
          (rows.take format.index_field_count)).1).length,
        data_offset := sizeof_vy_stmt + field_map_size format,
        lsn := 0, type := IPROTO_DELETE, flags := 0,
        field_map := applyWrites
          (List.replicate format.field_map_slots 0)
          (surrogateSpecElems format.fields (format.fields_depth - 1)
          (mp_encode_array format.index_field_count).length 0
          (rows.take format.index_field_count)).2.1,
        data := mp_encode_array format.index_field_count ++
          (surrogateSpecElems format.fields (format.fields_depth - 1)
          (mp_encode_array format.index_field_count).length 0
          (rows.take format.index_field_count)).1 } := by
    simp only [vy_stmt_new_surrogate_delete_raw, hdecode, hmin]
    rw [show MPVal.encList rows =
      MPVal.encList (rows.take format.index_field_count) ++
        MPVal.encList (rows.drop format.index_field_count) from by
      rw [← MPVal.encList_append, hsplit]]
    rw [show 2 * (MPVal.enc (.arr rows)).length + 2 =
      (2 * (MPVal.enc (.arr rows)).length + 2 -
        ((surrogateSpecElems format.fields (format.fields_depth - 1)
          (mp_encode_array format.index_field_count).length 0
          (rows.take format.index_field_count)).2.2 + 1)) +
        ((surrogateSpecElems format.fields (format.fields_depth - 1)
          (mp_encode_array format.index_field_count).length 0
          (rows.take format.index_field_count)).2.2 + 1) from by omega]
    rw [hsim]
    simp only [surrogate_loop]
    rw [vy_stmt_alloc_ok env format _ is_main hfit]
  refine ⟨_, hstmt, rfl, rfl, ?_, rfl, ?_, ?_, ?_⟩
  · rw [hmin]
    exact mp_decode_array_enc (by omega) _
  · intro slot hslot hnot
    have hne : ∀ p ∈ (surrogateSpecElems format.fields (format.fields_depth - 1)
          (mp_encode_array format.index_field_count).length 0
          (rows.take format.index_field_count)).2.1, p.1 ≠ slot := by
      intro p hp hpe
      apply hnot p.2
      have hpp : (slot, p.2) = p := by
        rw [← hpe]
      rw [hpp]
      exact hp
    have hu := applyWrites_untouched
      (List.replicate format.field_map_slots 0)
      (surrogateSpecElems format.fields (format.fields_depth - 1)
          (mp_encode_array format.index_field_count).length 0
          (rows.take format.index_field_count)).2.1 slot hne
    rw [hu]
    simp [List.getElem?_replicate, hslot]
  · intro j fld slot hj hlkj hkpj hosj hslot
    obtain ⟨off, hoff⟩ := surrogateSpecElems_mem_writes format.fields
      (format.fields_depth - 1) (rows.take format.index_field_count) j
      slot fld (mp_encode_array format.index_field_count).length 0
      (by omega) (by rw [List.length_take]; omega) hlkj hkpj hosj
    have hpos : ∀ p ∈ (surrogateSpecElems format.fields (format.fields_depth - 1)
          (mp_encode_array format.index_field_count).length 0
          (rows.take format.index_field_count)).2.1, 1 ≤ p.2 := by
      intro p hp
      have h1 := surrogateSpecElems_writes_ge format.fields
        (format.fields_depth - 1)
        (mp_encode_array format.index_field_count).length 0
        (rows.take format.index_field_count) p hp
      have h2 := mp_encode_array_len_pos format.index_field_count
      omega
    obtain ⟨x, hx, hx1⟩ := applyWrites_written
      (List.replicate format.field_map_slots 0)
      (surrogateSpecElems format.fields (format.fields_depth - 1)
          (mp_encode_array format.index_field_count).length 0
          (rows.take format.index_field_count)).2.1 slot
      (by simpa using hslot) ⟨(slot, off), hoff, rfl⟩ hpos
    exact ⟨x, hx, hx1⟩
  · intro ch tok v avail base hcase
    rcases hcase with hn | ⟨fld, hsf, hkf⟩
    · rw [surrogateSpecStep_none hn]
    · rw [surrogateSpecStep_nonkey hsf hkf]

theorem C4_surrogate_delete_witness :
    ∃ stmt,
      (vy_stmt_new_surrogate_delete_raw
          { max_tuple_size := 1048576, key_format := { id := 0, field_map_slots := 0, index_field_count := 0, fields_depth := 0, fields := [] } }
          { id := 7, field_map_slots := 2, index_field_count := 2, fields_depth := 1, fields := [(JsonToken.num 0, TupleFieldTree.node true (some 0) []), (JsonToken.num 1, TupleFieldTree.node true (some 1) [])] }
          (MPVal.enc (.arr [.uint 1, .uint 2, .uint 3])) true ⟨0⟩).stmt =
        some stmt ∧
      stmt.type = IPROTO_DELETE ∧
      stmt.data = [0x92, 1, 2] ∧
      stmt.field_map = [1, 2] := by
  obtain ⟨stmt, hsome, htype, hdata, -, hfmap, -, -, -⟩ :=
    C4_surrogate_delete
      { max_tuple_size := 1048576, key_format := { id := 0, field_map_slots := 0, index_field_count := 0, fields_depth := 0, fields := [] } }
      { id := 7, field_map_slots := 2, index_field_count := 2, fields_depth := 1, fields := [(JsonToken.num 0, TupleFieldTree.node true (some 0) []), (JsonToken.num 1, TupleFieldTree.node true (some 1) [])] }
      [.uint 1, .uint 2, .uint 3] true ⟨0⟩
      (by simp [MPVal.goodList, MPVal.good])
      (by norm_num)
      (by norm_num)
      (by norm_num [surrogateSpecElems, surrogateSpecStep, surrogateSpecVal,
        surrogateSpecVal_uint, json_tree_lookup, mp_encode_array, sizeof_vy_stmt, field_map_size,
        MPVal.enc, mp_encode_uint, mp_encode_nil,
        TupleFieldTree.is_key_part, TupleFieldTree.offset_slot])
  refine ⟨stmt, hsome, htype, ?_, ?_⟩
  · rw [hdata]
    norm_num [surrogateSpecElems, surrogateSpecStep, surrogateSpecVal,
      surrogateSpecVal_uint, json_tree_lookup, mp_encode_array, MPVal.enc, mp_encode_uint,
      TupleFieldTree.is_key_part, TupleFieldTree.offset_slot, List.take]
  · rw [hfmap]
    norm_num [surrogateSpecElems, surrogateSpecStep, surrogateSpecVal,
      surrogateSpecVal_uint, json_tree_lookup, mp_encode_array, MPVal.enc, mp_encode_uint,
      TupleFieldTree.is_key_part, TupleFieldTree.offset_slot, List.take,
      applyWrites, List.replicate, List.set, List.foldl]

end Vy
